import Mathlib

/-!
Verification development for the CSV exploration dashboard in src/index.py.

The embedding models the ingestion and cleaning core of the program:

* a Table is the shallow embedding of a pandas DataFrame: a header (list of
  column names) together with a list of rows, each row a list of cells;
* a cell is a string, a rational number, or the missing marker (NaN);
* clean_data mirrors the Python function of the same name: drop_duplicates,
  then pd.to_numeric with errors coerce on the designated numeric columns,
  then str.strip / str.upper on the designated text columns;
* detect_file_properties and load_uploaded_file mirror the two loading entry
  points (encoding detection by chardet and the Python codecs are external:
  they are passed in as a decoding function, Latin-1 decoding is total);
* read_csv and to_csv model the pandas CSV reader and writer far enough for
  the loader and the export round trip: quote-aware record and field
  splitting, minimal quoting on output, blank-line skipping, skipping of
  over-long rows (on_bad_lines warn), NaN padding of short rows, the empty
  field as the missing marker, and per-column numeric type inference.

Modelling scope, stated once: uppercasing and whitespace are modelled on the
ASCII range (Python's str.upper and str.strip are Unicode-aware); the numeric
grammar of pd.to_numeric is modelled as optional sign, digits and an optional
fractional part (exponents, inf and nan literals are out of scope); the set
of strings read_csv treats as NA is modelled as the empty field only; header
name mangling of duplicate or empty column names is not modelled.  Numbers
are exact rationals, not IEEE floats; every number the modelled pipeline
produces has a finite decimal expansion, which is what the writer prints.
-/

deriving instance DecidableEq for Except

/-- Cell value of a table: a string, a number, or the missing marker (NaN).
Note that pandas treats NaN as equal to NaN when dropping duplicate rows,
which the missing constructor reflects. -/
inductive Cell where
  | str (s : String)
  | num (q : Rat)
  | missing
deriving DecidableEq, Repr

/-- Shallow embedding of a pandas DataFrame: column names plus rows of cells. -/
structure Table where
  header : List String
  rows : List (List Cell)
deriving DecidableEq, Repr

/-- Whitespace test covering the characters stripped by Python str.strip
(space, tab, newline, vertical tab, form feed, carriage return). -/
def isSpace (c : Char) : Bool :=
  c.toNat = 32 || (9 ≤ c.toNat && c.toNat ≤ 13)

/-- Uppercasing of a single character, modelling Python str.upper on the
ASCII range. -/
def upperChar (c : Char) : Char :=
  if 97 ≤ c.toNat ∧ c.toNat ≤ 122 then Char.ofNat (c.toNat - 32) else c

/-- Removal of trailing characters satisfying p. -/
def dropTrail (p : Char → Bool) (l : List Char) : List Char :=
  (l.reverse.dropWhile p).reverse

/-- List-level model of Python str.strip: drop leading and trailing
whitespace. -/
def stripL (l : List Char) : List Char :=
  dropTrail isSpace (l.dropWhile isSpace)

/-- Model of Python str.strip on strings. -/
def stripStr (s : String) : String :=
  ⟨stripL s.data⟩

/-- Model of Python str.upper on strings. -/
def upperStr (s : String) : String :=
  ⟨s.data.map upperChar⟩

/-- Digit test for the numeric grammar of pd.to_numeric. -/
def isDigitC (c : Char) : Bool :=
  48 ≤ c.toNat && c.toNat ≤ 57

/-- Value of a big-endian digit string. -/
def digitsVal (l : List Char) : Nat :=
  l.foldl (fun a c => 10 * a + (c.toNat - 48)) 0

/-- Unsigned part of the numeric grammar: digits with an optional fractional
part, at least one digit overall.  The value is returned as a numerator and
denominator pair so that the rational can be built in one step. -/
def parseUnsignedParts (l : List Char) : Option (Nat × Nat) :=
  let ip := l.takeWhile isDigitC
  match l.dropWhile isDigitC with
  | [] => if ip.isEmpty then none else some (digitsVal ip, 1)
  | '.' :: fr =>
      if fr.all isDigitC && (!ip.isEmpty || !fr.isEmpty) then
        some (digitsVal ip * 10 ^ fr.length + digitsVal fr, 10 ^ fr.length)
      else none
  | _ => none

/-- Model of the number parsing performed by pd.to_numeric on a single
string: surrounding whitespace is tolerated, then an optional sign and
digits with an optional fractional part.  Returns none where the real
parser raises (which errors coerce turns into NaN). -/
def parseNum (s : String) : Option Rat :=
  match stripL s.data with
  | '-' :: u => (parseUnsignedParts u).map (fun p => mkRat (-(p.1 : Int)) p.2)
  | '+' :: u => (parseUnsignedParts u).map (fun p => mkRat (p.1 : Int) p.2)
  | u => (parseUnsignedParts u).map (fun p => mkRat (p.1 : Int) p.2)

/-- Model of pd.to_numeric with errors equal to coerce, applied to one cell:
numbers pass through, strings are parsed, anything unparsable and NaN give
NaN. -/
def to_numeric (v : Cell) : Cell :=
  match v with
  | .str s =>
      match parseNum s with
      | some q => .num q
      | none => .missing
  | .num q => .num q
  | .missing => .missing

/-- Per-cell value of col.str.strip().str.upper() on a column that passes
the str accessor validation (see str_strip_upper): strings are stripped
then uppercased; NaN passes through; a non-string value in a mixed object
column is turned into NaN by the accessor.  On a numeric-dtype column the
accessor raises instead of computing values, so this function is only
reached through columns str_accessor_ok accepts. -/
def normalize_text (v : Cell) : Cell :=
  match v with
  | .str s => .str (upperStr (stripStr s))
  | .num _ => .missing
  | .missing => .missing

/-- Column of a list of rows at one position, as pandas holds it (rows of a
DataFrame are rectangular; a short model row contributes nothing). -/
def colCells (rows : List (List Cell)) (j : Nat) : List Cell :=
  rows.filterMap (fun r => r.get? j)

/-- Validation performed by the pandas .str accessor against the column's
inferred dtype: the accessor is allowed on columns inferred as string,
empty or mixed (the column holds a string, or only NaN); a column holding a
number and no string is inferred numeric (integer or floating, as read_csv
infers every fully numeric column) and the accessor raises AttributeError. -/
def str_accessor_ok (cells : List Cell) : Bool :=
  cells.any (fun v => match v with | .str _ => true | _ => false)
    || cells.all (fun v => match v with | .missing => true | _ => false)

/-- Model of df[col].str.strip().str.upper() at column level (source line
80): the accessor first validates the column's inferred dtype and raises
AttributeError on a numeric column; on an accepted column, strings are
stripped and upper-cased, NaN passes through, and non-string values of a
mixed column give NaN. -/
def str_strip_upper (cells : List Cell) : Except String (List Cell) :=
  if str_accessor_ok cells then .ok (cells.map normalize_text)
  else .error "Can only use .str accessor with string values!"

/-- The designated numeric columns of clean_data (source line 71). -/
def numeric_cols : List String := ["AÑO", "PRECIO", "MEDIA", "PUNTUACIÓN"]

/-- The designated text columns of clean_data (source line 77). -/
def text_cols : List String := ["TÍTULO", "GÉNERO", "PLATAFORMA", "DESARROLLADOR"]

/-- Column assignment df[col] = f(df[col]) restricted to one row: the cell
in every position whose column name equals col is replaced by its image
under f. -/
def applyCol : List String → String → (Cell → Cell) → List Cell → List Cell
  | [], _, _, row => row
  | _ :: _, _, _, [] => []
  | c :: cs, col, f, v :: vs => (if c = col then f v else v) :: applyCol cs col f vs

/-- Column assignment df[col] = f(df[col]) on a whole table. -/
def setCol (df : Table) (col : String) (f : Cell → Cell) : Table :=
  ⟨df.header, df.rows.map (applyCol df.header col f)⟩

/-- Duplicate removal keeping the first occurrence, with the rows already
seen as accumulator.  pandas drop_duplicates with default arguments keeps
the first occurrence of each fully identical row. -/
def dedupAux (seen : List (List Cell)) : List (List Cell) → List (List Cell)
  | [] => []
  | r :: rs => if r ∈ seen then dedupAux seen rs else r :: dedupAux (r :: seen) rs

/-- Model of df.drop_duplicates(): remove every row equal to an earlier row. -/
def drop_duplicates (rows : List (List Cell)) : List (List Cell) :=
  dedupAux [] rows

/-- Model of clean_data from src/index.py lines 66 to 82: drop duplicate
rows, then coerce each designated numeric column that is present, then
normalize each designated text column that is present. -/
def clean_data (df : Table) : Table :=
  let df1 : Table := ⟨df.header, drop_duplicates df.rows⟩
  let df2 := numeric_cols.foldl
    (fun d col => if col ∈ d.header then setCol d col to_numeric else d) df1
  let df3 := text_cols.foldl
    (fun d col => if col ∈ d.header then setCol d col normalize_text else d) df2
  df3

/-- Combined per-cell effect of the two column loops of clean_data on a cell
under a given column name, in source order. -/
def transformCell (col : String) (v : Cell) : Cell :=
  let v1 := if col = "AÑO" then to_numeric v else v
  let v2 := if col = "PRECIO" then to_numeric v1 else v1
  let v3 := if col = "MEDIA" then to_numeric v2 else v2
  let v4 := if col = "PUNTUACIÓN" then to_numeric v3 else v3
  let v5 := if col = "TÍTULO" then normalize_text v4 else v4
  let v6 := if col = "GÉNERO" then normalize_text v5 else v5
  let v7 := if col = "PLATAFORMA" then normalize_text v6 else v6
  if col = "DESARROLLADOR" then normalize_text v7 else v7

/-- Combined per-row effect of the two column loops of clean_data. -/
def transformRow : List String → List Cell → List Cell
  | _, [] => []
  | [], v :: vs => v :: transformRow [] vs
  | c :: cs, v :: vs => transformCell c v :: transformRow cs vs

/-- Cell allowed in a designated numeric column by the CleanTable invariant:
a number or the missing marker. -/
def isNumOrMissing (v : Cell) : Bool :=
  match v with
  | .str _ => false
  | .num _ => true
  | .missing => true

/-- Cell allowed in a designated text column by the CleanTable invariant:
a trimmed, upper-cased string or the missing marker. -/
def isCleanText (v : Cell) : Bool :=
  match v with
  | .str s => decide (stripStr s = s) && decide (upperStr s = s)
  | .num _ => false
  | .missing => true

/-- CleanTable invariant, written from the spec: no two rows are fully
identical, designated numeric columns hold only numbers or missing, and
designated text columns hold only trimmed upper-cased strings or missing. -/
def cleanTableInv (t : Table) : Prop :=
  t.rows.Nodup ∧
  ∀ r ∈ t.rows, ∀ i c v, t.header.get? i = some c → r.get? i = some v →
    (c ∈ numeric_cols → isNumOrMissing v = true) ∧
    (c ∈ text_cols → isCleanText v = true)

/-- Count of a character in a string, as used by the delimiter heuristic. -/
def countChar (c : Char) (s : String) : Nat :=
  s.data.count c

/-- First line of a text including its newline, the result of readline(). -/
def firstLineAux : List Char → List Char
  | [] => []
  | c :: cs => if c = '\n' then [c] else c :: firstLineAux cs

/-- First line of a string, as readline() returns it. -/
def firstLine (s : String) : String :=
  ⟨firstLineAux s.data⟩

/-- The delimiter heuristic shared by the three detection sites of the
source (lines 25, 45 and 57): comma wins only when it is strictly more
frequent than semicolon in the given first line. -/
def delimitadorOf (line : String) : Char :=
  if countChar ',' line > countChar ';' line then ',' else ';'

/-- Model of detect_file_properties.  chardet and the decoding performed by
open(file, encoding) are external; the function receives the detected
encoding name and the decoded file text and returns the encoding together
with the delimiter chosen from the first line. -/
def detect_file_properties (encoding : String) (decoded : String) : String × Char :=
  (encoding, delimitadorOf (firstLine decoded))

/-- Quote-aware splitting at a separator: a separator inside a quoted
region does not split, a quote character toggles the quoted state.  Used
with the newline separator for records and with the field delimiter for
fields, matching the CSV dialect of the pandas reader and writer. -/
def splitSep (sep : Char) : Bool → List Char → List Char → List (List Char)
  | _, acc, [] => [acc.reverse]
  | false, acc, c :: cs =>
      if c = sep then acc.reverse :: splitSep sep false [] cs
      else splitSep sep (c = '"') (c :: acc) cs
  | true, acc, c :: cs => splitSep sep (decide ¬ (c = '"')) (c :: acc) cs

/-- Collapse of doubled quote characters inside a quoted field. -/
def unescapeQuotes : List Char → List Char
  | [] => []
  | [c] => [c]
  | c :: d :: cs =>
      if c = '"' ∧ d = '"' then '"' :: unescapeQuotes cs
      else c :: unescapeQuotes (d :: cs)

/-- Removal of the surrounding quotes of a quoted raw field and unescaping
of its doubled quotes; an unquoted raw field is returned unchanged. -/
def unquoteField (f : List Char) : List Char :=
  match f with
  | '"' :: rest => unescapeQuotes rest.dropLast
  | _ => f

/-- Fields of one raw record. -/
def parseFields (delim : Char) (rec : List Char) : List (List Char) :=
  (splitSep delim false [] rec).map unquoteField

/-- Model of pd.read_csv with on_bad_lines equal to warn: quote-aware
record splitting, blank lines skipped, header taken from the first record,
data rows with more fields than the header skipped with a warning, short
rows padded with NaN, the empty field read as NaN, and a column whose
present fields all parse as numbers read as a numeric column.  Fails with
EmptyDataError when no record remains. -/
def recordsOf (text : String) : List (List Char) :=
  (splitSep '\n' false [] text.data).filter (fun r => !r.isEmpty)

/-- Raw fields of a data record turned into optional fields: the empty
field is NA, and a short row is padded with NA up to the header width. -/
def optFields (n : Nat) (fs : List (List Char)) : List (Option (List Char)) :=
  (fs.map (fun f => if f.isEmpty then none else some f))
    ++ List.replicate (n - fs.length) (none : Option (List Char))

/-- Numeric type inference for column j: every present field parses. -/
def numericColB (optRows : List (List (Option (List Char)))) (j : Nat) : Bool :=
  optRows.all (fun r =>
    match r.get? j with
    | some (some f) => (parseNum ⟨f⟩).isSome
    | _ => true)

/-- Cell of one optional field under the inferred column type. -/
def cellOf (numeric : Bool) (c : Option (List Char)) : Cell :=
  match c with
  | none => Cell.missing
  | some f =>
      if numeric then
        match parseNum ⟨f⟩ with
        | some q => Cell.num q
        | none => Cell.missing
      else Cell.str ⟨f⟩

def read_csv (delim : Char) (text : String) : Except String Table :=
  match recordsOf text with
  | [] => .error "No columns to parse from file"
  | hrec :: drecs =>
    let hdr := (parseFields delim hrec).map (fun f => (⟨f⟩ : String))
    let rawRows := (drecs.map (parseFields delim)).filter
      (fun fs => fs.length ≤ hdr.length)
    let optRows := rawRows.map (optFields hdr.length)
    .ok ⟨hdr, optRows.map (fun r => r.enum.map
      (fun p => cellOf (numericColB optRows p.1) p.2))⟩

/-- Latin-1 decoding of a byte buffer: every byte decodes to the character
of the same code point, so it never fails. -/
def decodeLatin1 (raw : List Nat) : String :=
  ⟨raw.map Char.ofNat⟩

/-- Model of load_uploaded_file.  Decoding with the chardet-detected
encoding is external and passed in as dec; a decode error makes it return
an error like str.decode raising UnicodeDecodeError.  The outer Except is
an uncaught Python exception escaping the function (a parse error in the
first try block, whose except clause only catches UnicodeDecodeError); the
inner Except is the handled failure path of the second try block, which
shows a user-visible message carrying the cause and returns None. -/
def load_uploaded_file (dec : List Nat → Except String String) (raw : List Nat) :
    Except String (Except String Table) :=
  match dec raw with
  | .ok string_data =>
      let delimitador := delimitadorOf (firstLine string_data)
      match read_csv delimitador string_data with
      | .ok df => .ok (.ok df)
      | .error e => .error e
  | .error _ =>
      let string_data := decodeLatin1 raw
      let delimitador := delimitadorOf (firstLine string_data)
      match read_csv delimitador string_data with
      | .ok df => .ok (.ok df)
      | .error e => .ok (.error ("No se pudo decodificar el archivo: " ++ e))

/-- Heap of dataframe objects: a reference is an index into the allocation
list.  Used to express the aliasing content of clean_data: which frame each
pandas operation writes to. -/
structure Heap where
  tables : List Table

/-- Table currently behind a reference. -/
def Heap.getRef (h : Heap) (r : Nat) : Option Table :=
  h.tables.get? r

/-- Allocation of a fresh frame, returning the new heap and its reference. -/
def Heap.alloc (h : Heap) (t : Table) : Heap × Nat :=
  (⟨h.tables ++ [t]⟩, h.tables.length)

/-- In-place replacement of the frame behind a reference. -/
def Heap.setRef (h : Heap) (r : Nat) (t : Table) : Heap :=
  ⟨h.tables.set r t⟩

/-- Heap-level df.drop_duplicates(): pandas returns a fresh copy, so the
result is allocated and the argument frame is untouched. -/
def dropDuplicatesH (h : Heap) (r : Nat) : Heap × Nat :=
  match h.getRef r with
  | some t => h.alloc ⟨t.header, drop_duplicates t.rows⟩
  | none => h.alloc ⟨[], []⟩

/-- Heap-level df[col] = f(df[col]): pandas column assignment mutates the
frame behind the reference in place. -/
def setColH (h : Heap) (r : Nat) (col : String) (f : Cell → Cell) : Heap :=
  match h.getRef r with
  | some t => h.setRef r (setCol t col f)
  | none => h

/-- Header of the frame behind a reference, for the col in df.columns test. -/
def headerAt (h : Heap) (r : Nat) : List String :=
  match h.getRef r with
  | some t => t.header
  | none => []

/-- Heap-level clean_data, mirroring the statements of the source line by
line: the local name df is rebound to the fresh copy returned by
drop_duplicates, and every later column assignment targets that copy, not
the frame the caller passed in. -/
def clean_dataH (h : Heap) (r : Nat) : Heap × Nat :=
  let p := dropDuplicatesH h r
  let h2 := numeric_cols.foldl (fun a col =>
    if col ∈ headerAt a p.2 then setColH a p.2 col to_numeric else a) p.1
  let h3 := text_cols.foldl (fun a col =>
    if col ∈ headerAt a p.2 then setColH a p.2 col normalize_text else a) h2
  (h3, p.2)

/-- Field needs quoting under the minimal quoting rule of the csv writer:
it contains the delimiter, a quote, or a line break. -/
def needsQuote (delim : Char) (s : List Char) : Bool :=
  s.any (fun c => c = delim || c = '"' || c = '\n' || c = '\r')

/-- Doubling of quote characters inside a quoted field. -/
def escapeQuotes : List Char → List Char
  | [] => []
  | c :: cs => if c = '"' then '"' :: '"' :: escapeQuotes cs else c :: escapeQuotes cs

/-- Rendering of one field with minimal quoting, as the csv writer does. -/
def renderField (delim : Char) (s : List Char) : List Char :=
  if needsQuote delim s then '"' :: (escapeQuotes s ++ ['"']) else s

/-- Joining of rendered fields with the delimiter. -/
def renderRecord (delim : Char) : List (List Char) → List Char
  | [] => []
  | [f] => f
  | f :: fs => f ++ delim :: renderRecord delim fs

/-- Little-endian decimal digits with fuel (fuel at least the number keeps
the recursion structural, so that concrete values reduce in the kernel). -/
def natDigitsAux : Nat → Nat → List Nat
  | _, 0 => []
  | 0, _ => []
  | fuel + 1, n + 1 => (n + 1) % 10 :: natDigitsAux fuel ((n + 1) / 10)

/-- Digit character of a digit value. -/
def digitChar (d : Nat) : Char :=
  Char.ofNat (48 + d)

/-- Big-endian decimal digit string of a natural number. -/
def natDigits (n : Nat) : List Char :=
  if n = 0 then ['0'] else ((natDigitsAux n n).map digitChar).reverse

/-- Left padding with digit zeros up to a length. -/
def padZeros (k : Nat) (ds : List Char) : List Char :=
  List.replicate (k - ds.length) '0' ++ ds

/-- Smallest exponent k with den dividing 10 ^ k, searched up to den; every
denominator the pipeline produces divides a power of ten, and for those the
search succeeds. -/
def decExp (d : Nat) : Nat :=
  (((List.range (d + 1)).find? (fun k => decide (d ∣ 10 ^ k))).getD d)

/-- Decimal rendering of a rational with finite decimal expansion, as the
csv writer prints the numbers of a numeric column. -/
def showNum (q : Rat) : List Char :=
  let k := decExp q.den
  let m := q.num.natAbs * 10 ^ k / q.den
  let ds := padZeros (k + 1) (natDigits m)
  (if q.num < 0 then ['-'] else []) ++
    (ds.take (ds.length - k) ++ (if k = 0 then [] else '.' :: ds.drop (ds.length - k)))

/-- Serialized text of one cell: strings as they are, numbers in decimal,
missing as the empty field (na_rep of to_csv is the empty string). -/
def cellField : Cell → List Char
  | .str s => s.data
  | .num q => showNum q
  | .missing => []

/-- Serialized record of one row. -/
def renderRow (delim : Char) (row : List Cell) : List Char :=
  renderRecord delim (row.map (fun v => renderField delim (cellField v)))

/-- Concatenation of records, each terminated by a newline. -/
def renderLines : List (List Char) → List Char
  | [] => []
  | r :: rs => r ++ '\n' :: renderLines rs

/-- Model of df.to_csv(index=False): header record then one record per row,
comma separated, each line terminated by a newline. -/
def to_csv (t : Table) : String :=
  ⟨renderLines (renderRecord ',' (t.header.map (fun h => renderField ',' h.data))
    :: t.rows.map (renderRow ','))⟩

/-- Cell allowed in a parsed column as a string or missing. -/
def isStrOrMissing (v : Cell) : Bool :=
  match v with
  | .str _ => true
  | .num _ => false
  | .missing => true

/-- Cell correspondence claimed by the round-trip sentence of the spec: the
reparsed cell equals the original, except that a string spelling a number
may come back as that number. -/
def csvCoercionRel (v w : Cell) : Bool :=
  w == v ||
    (match v, w with
     | .str s, .num q => parseNum s == some q
     | _, _ => false)

/-- Cell correspondence of the amended round trip: additionally an empty
string comes back as missing, because to_csv writes both the empty string
and missing as the empty field and read_csv reads the empty field as NaN. -/
def csvRoundTripRel (v w : Cell) : Bool :=
  csvCoercionRel v w || (v == .str "" && w == .missing)

/-- Value of a little-endian digit list. -/
def valLE : List Nat → Nat
  | [] => 0
  | d :: ds => d + 10 * valLE ds

/-- Column j of a table holds only numbers or missing. -/
def colNum (t : Table) (j : Nat) : Prop :=
  ∀ r ∈ t.rows, ∀ v, r.get? j = some v → isNumOrMissing v = true

/-- Column j of a table holds only strings or missing. -/
def colStr (t : Table) (j : Nat) : Prop :=
  ∀ r ∈ t.rows, ∀ v, r.get? j = some v → isStrOrMissing v = true

/-- Every number of the table has a finite decimal expansion. -/
def decimalCells (t : Table) : Prop :=
  ∀ r ∈ t.rows, ∀ v ∈ r, ∀ q, v = Cell.num q → ∃ n, q.den ∣ 10 ^ n

/-- Optional field of a serialized cell as the reader sees it after to_csv:
the empty serialization (missing, or the empty string) reads back as NA. -/
def optCell (v : Cell) : Option (List Char) :=
  if (cellField v).isEmpty then none else some (cellField v)

theorem upperChar_toNat (c : Char) :
    (upperChar c).toNat =
      if 97 ≤ c.toNat ∧ c.toNat ≤ 122 then c.toNat - 32 else c.toNat := by
  unfold upperChar
  split
  · next h =>
    have hv : (c.toNat - 32).isValidChar := by
      unfold Nat.isValidChar
      left
      omega
    simp [Char.ofNat, hv]
    rfl
  · rfl

theorem isSpace_upperChar (c : Char) : isSpace (upperChar c) = isSpace c := by
  have h := upperChar_toNat c
  unfold isSpace
  by_cases hc : 97 ≤ c.toNat ∧ c.toNat ≤ 122
  · rw [if_pos hc] at h
    rw [h]
    have h1 : ¬ (c.toNat - 32 = 32) := by omega
    have h2 : ¬ (c.toNat - 32 ≤ 13) := by omega
    have h3 : ¬ (c.toNat = 32) := by omega
    have h4 : ¬ (c.toNat ≤ 13) := by omega
    simp [h1, h2, h3, h4]
  · rw [if_neg hc] at h
    rw [h]

theorem upperChar_eq_self (d : Char)
    (hd : ¬ (97 ≤ d.toNat ∧ d.toNat ≤ 122)) : upperChar d = d := by
  unfold upperChar
  rw [if_neg hd]

theorem upperChar_idem (c : Char) : upperChar (upperChar c) = upperChar c := by
  apply upperChar_eq_self
  rw [upperChar_toNat]
  split <;> omega

theorem dropWhile_idem (p : Char → Bool) (l : List Char) :
    (l.dropWhile p).dropWhile p = l.dropWhile p := by
  induction l with
  | nil => rfl
  | cons c cs ih =>
    by_cases h : p c
    · simp [List.dropWhile_cons, h, ih]
    · simp [List.dropWhile_cons, h]

theorem dropTrail_idem (p : Char → Bool) (l : List Char) :
    dropTrail p (dropTrail p l) = dropTrail p l := by
  unfold dropTrail
  rw [List.reverse_reverse, dropWhile_idem]

/-- A nonempty dropWhile result starts with an element refuting p. -/
theorem dropWhile_head_false (p : Char → Bool) (l : List Char) (c : Char)
    (cs : List Char) (h : l.dropWhile p = c :: cs) : p c = false := by
  induction l with
  | nil => simp at h
  | cons a as ih =>
    by_cases ha : p a
    · rw [List.dropWhile_cons, if_pos ha] at h
      exact ih h
    · rw [List.dropWhile_cons, if_neg ha] at h
      cases h
      simpa using ha

/-- If the first element refutes p, dropTrail keeps it in front. -/
theorem dropTrail_cons_head (p : Char → Bool) (c : Char) (cs : List Char)
    (hc : p c = false) : ∃ t, dropTrail p (c :: cs) = c :: t := by
  unfold dropTrail
  rw [List.reverse_cons, List.dropWhile_append]
  split
  · refine ⟨[], ?_⟩
    simp [List.dropWhile_cons, hc]
  · refine ⟨(cs.reverse.dropWhile p).reverse, ?_⟩
    rw [List.reverse_append]
    simp

theorem stripL_idem (l : List Char) : stripL (stripL l) = stripL l := by
  unfold stripL
  have h1 : (dropTrail isSpace (l.dropWhile isSpace)).dropWhile isSpace
      = dropTrail isSpace (l.dropWhile isSpace) := by
    cases hA : l.dropWhile isSpace with
    | nil => rfl
    | cons c cs =>
      have hc : isSpace c = false := dropWhile_head_false isSpace l c cs hA
      obtain ⟨t, ht⟩ := dropTrail_cons_head isSpace c cs hc
      rw [ht, List.dropWhile_cons, if_neg (by simp [hc])]
  rw [h1, dropTrail_idem]

theorem isSpace_comp_upperChar : (fun c => isSpace (upperChar c)) = isSpace := by
  funext c
  exact isSpace_upperChar c

theorem dropWhile_isSpace_map_upper (l : List Char) :
    (l.map upperChar).dropWhile isSpace = (l.dropWhile isSpace).map upperChar := by
  rw [List.dropWhile_map]
  have h : isSpace ∘ upperChar = isSpace := by
    funext c
    exact isSpace_upperChar c
  rw [h]

theorem stripL_map_upper (l : List Char) :
    stripL (l.map upperChar) = (stripL l).map upperChar := by
  unfold stripL dropTrail
  rw [dropWhile_isSpace_map_upper, ← List.map_reverse, dropWhile_isSpace_map_upper,
    ← List.map_reverse]

theorem map_upper_idem (l : List Char) :
    (l.map upperChar).map upperChar = l.map upperChar := by
  rw [List.map_map]
  exact List.map_congr_left fun c _ => upperChar_idem c

theorem stripL_upper_stripL (l : List Char) :
    stripL ((stripL l).map upperChar) = (stripL l).map upperChar := by
  rw [stripL_map_upper, stripL_idem]

theorem dedupAux_sublist (l : List (List Cell)) :
    ∀ seen, (dedupAux seen l).Sublist l := by
  induction l with
  | nil => intro seen; exact List.Sublist.refl []
  | cons r rs ih =>
    intro seen
    unfold dedupAux
    split
    · exact (ih seen).cons r
    · exact (ih (r :: seen)).cons₂ r

theorem mem_dedupAux (l : List (List Cell)) :
    ∀ seen r, r ∈ dedupAux seen l ↔ r ∈ l ∧ r ∉ seen := by
  induction l with
  | nil => intro seen r; simp [dedupAux]
  | cons a as ih =>
    intro seen r
    unfold dedupAux
    split
    · next ha =>
      rw [ih]
      constructor
      · rintro ⟨h1, h2⟩
        exact ⟨List.mem_cons_of_mem a h1, h2⟩
      · rintro ⟨h1, h2⟩
        rcases List.mem_cons.mp h1 with rfl | h1
        · exact absurd ha h2
        · exact ⟨h1, h2⟩
    · next ha =>
      rw [List.mem_cons, ih]
      constructor
      · rintro (h | ⟨h1, h2⟩)
        · rw [h]
          exact ⟨List.mem_cons_self a as, ha⟩
        · refine ⟨List.mem_cons_of_mem a h1, fun hs => h2 (List.mem_cons_of_mem a hs)⟩
      · rintro ⟨h1, h2⟩
        rcases List.mem_cons.mp h1 with rfl | h1
        · exact Or.inl rfl
        · by_cases hr : r = a
          · exact Or.inl hr
          · refine Or.inr ⟨h1, fun hs => ?_⟩
            rcases List.mem_cons.mp hs with h | h
            · exact hr h
            · exact h2 h

theorem dedupAux_nodup (l : List (List Cell)) :
    ∀ seen, (dedupAux seen l).Nodup := by
  induction l with
  | nil => intro seen; exact List.nodup_nil
  | cons a as ih =>
    intro seen
    unfold dedupAux
    split
    · exact ih seen
    · refine List.nodup_cons.mpr ⟨fun h => ?_, ih (a :: seen)⟩
      exact ((mem_dedupAux as (a :: seen) a).mp h).2 (List.mem_cons_self a seen)

theorem dedupAux_eq_self (l : List (List Cell)) :
    ∀ seen, l.Nodup → (∀ r ∈ l, r ∉ seen) → dedupAux seen l = l := by
  induction l with
  | nil => intro seen _ _; rfl
  | cons a as ih =>
    intro seen hnd hs
    unfold dedupAux
    rw [if_neg (hs a (List.mem_cons_self a as))]
    congr 1
    refine ih (a :: seen) (List.nodup_cons.mp hnd).2 fun r hr hmem => ?_
    rcases List.mem_cons.mp hmem with rfl | h
    · exact (List.nodup_cons.mp hnd).1 hr
    · exact hs r (List.mem_cons_of_mem a hr) h

theorem drop_duplicates_sublist (rows : List (List Cell)) :
    (drop_duplicates rows).Sublist rows :=
  dedupAux_sublist rows []

theorem mem_drop_duplicates (rows : List (List Cell)) (r : List Cell) :
    r ∈ drop_duplicates rows ↔ r ∈ rows := by
  rw [drop_duplicates, mem_dedupAux]
  simp

theorem drop_duplicates_nodup (rows : List (List Cell)) :
    (drop_duplicates rows).Nodup :=
  dedupAux_nodup rows []

theorem drop_duplicates_eq_self (rows : List (List Cell)) (h : rows.Nodup) :
    drop_duplicates rows = rows :=
  dedupAux_eq_self rows [] h (by simp)

theorem to_numeric_idem (v : Cell) : to_numeric (to_numeric v) = to_numeric v := by
  cases v with
  | str s => cases h : parseNum s <;> simp [to_numeric, h]
  | num q => rfl
  | missing => rfl

theorem normalize_text_idem (v : Cell) :
    normalize_text (normalize_text v) = normalize_text v := by
  cases v with
  | str s =>
    show Cell.str (upperStr (stripStr (upperStr (stripStr s)))) = _
    unfold upperStr stripStr
    rw [show (⟨stripL s.data⟩ : String).data = stripL s.data from rfl]
    rw [show (⟨(stripL s.data).map upperChar⟩ : String).data
      = (stripL s.data).map upperChar from rfl]
    rw [stripL_upper_stripL, map_upper_idem]
    rfl
  | num q => rfl
  | missing => rfl

theorem transformCell_numeric (c : String) (hc : c ∈ numeric_cols) (v : Cell) :
    transformCell c v = to_numeric v := by
  have h : c = "AÑO" ∨ c = "PRECIO" ∨ c = "MEDIA" ∨ c = "PUNTUACIÓN" := by
    simpa [numeric_cols] using hc
  rcases h with rfl | rfl | rfl | rfl <;> rfl

theorem transformCell_text (c : String) (hc : c ∈ text_cols) (v : Cell) :
    transformCell c v = normalize_text v := by
  have h : c = "TÍTULO" ∨ c = "GÉNERO" ∨ c = "PLATAFORMA" ∨ c = "DESARROLLADOR" := by
    simpa [text_cols] using hc
  rcases h with rfl | rfl | rfl | rfl <;> rfl

theorem transformCell_other (c : String) (h1 : c ∉ numeric_cols)
    (h2 : c ∉ text_cols) (v : Cell) : transformCell c v = v := by
  simp only [numeric_cols, List.mem_cons, List.not_mem_nil, or_false, not_or] at h1
  simp only [text_cols, List.mem_cons, List.not_mem_nil, or_false, not_or] at h2
  obtain ⟨a1, a2, a3, a4⟩ := h1
  obtain ⟨b1, b2, b3, b4⟩ := h2
  simp [transformCell, a1, a2, a3, a4, b1, b2, b3, b4]

theorem transformCell_idem (c : String) (v : Cell) :
    transformCell c (transformCell c v) = transformCell c v := by
  by_cases h1 : c ∈ numeric_cols
  · rw [transformCell_numeric c h1, transformCell_numeric c h1, to_numeric_idem]
  · by_cases h2 : c ∈ text_cols
    · rw [transformCell_text c h2, transformCell_text c h2, normalize_text_idem]
    · rw [transformCell_other c h1 h2, transformCell_other c h1 h2]

theorem transformRow_nil_hdr (row : List Cell) : transformRow [] row = row := by
  induction row with
  | nil => rfl
  | cons v vs ih => rw [show transformRow [] (v :: vs) = v :: transformRow [] vs from rfl, ih]

theorem transformRow_empty (hdr : List String) : transformRow hdr [] = [] := by
  cases hdr <;> rfl

theorem transformRow_length (hdr : List String) :
    ∀ row : List Cell, (transformRow hdr row).length = row.length := by
  induction hdr with
  | nil => intro row; rw [transformRow_nil_hdr]
  | cons c cs ih =>
    intro row
    cases row with
    | nil => rfl
    | cons v vs =>
      show (transformCell c v :: transformRow cs vs).length = (v :: vs).length
      simp [ih vs]

theorem transformRow_get? (hdr : List String) :
    ∀ (row : List Cell) (i : Nat),
      (transformRow hdr row).get? i =
        (row.get? i).map (fun v =>
          match hdr.get? i with
          | some c => transformCell c v
          | none => v) := by
  induction hdr with
  | nil =>
    intro row i
    rw [transformRow_nil_hdr]
    cases h : row.get? i <;> simp [h]
  | cons c cs ih =>
    intro row i
    cases row with
    | nil => simp [transformRow_empty]
    | cons v vs =>
      cases i with
      | zero => rfl
      | succ j =>
        show (transformRow cs vs).get? j = _
        rw [ih vs j]
        rfl

theorem transformRow_idem (hdr : List String) :
    ∀ row : List Cell, transformRow hdr (transformRow hdr row) = transformRow hdr row := by
  induction hdr with
  | nil => intro row; rw [transformRow_nil_hdr, transformRow_nil_hdr]
  | cons c cs ih =>
    intro row
    cases row with
    | nil => rfl
    | cons v vs =>
      show transformRow (c :: cs) (transformCell c v :: transformRow cs vs)
        = transformCell c v :: transformRow cs vs
      show transformCell c (transformCell c v) :: transformRow cs (transformRow cs vs) = _
      rw [transformCell_idem, ih vs]

theorem applyCol_absent (col : String) (f : Cell → Cell) :
    ∀ (hdr : List String) (row : List Cell), col ∉ hdr →
      applyCol hdr col f row = row := by
  intro hdr
  induction hdr with
  | nil => intro row _; rfl
  | cons c cs ih =>
    intro row hm
    cases row with
    | nil => rfl
    | cons v vs =>
      have hc : ¬ (c = col) := fun h => hm (h ▸ List.mem_cons_self c cs)
      show (if c = col then f v else v) :: applyCol cs col f vs = v :: vs
      rw [if_neg hc, ih vs fun h => hm (List.mem_cons_of_mem c h)]

theorem setCol_guard (d : Table) (col : String) (f : Cell → Cell) :
    (if col ∈ d.header then setCol d col f else d) = setCol d col f := by
  split
  · rfl
  · next h =>
    cases d with
    | mk hdr rows =>
      simp only [setCol]
      congr 1
      rw [show rows.map (applyCol hdr col f) = rows.map id from
        List.map_congr_left fun r _ => applyCol_absent col f hdr r h, List.map_id]

theorem applyCol_chain (hdr : List String) : ∀ row : List Cell,
    applyCol hdr "DESARROLLADOR" normalize_text
      (applyCol hdr "PLATAFORMA" normalize_text
        (applyCol hdr "GÉNERO" normalize_text
          (applyCol hdr "TÍTULO" normalize_text
            (applyCol hdr "PUNTUACIÓN" to_numeric
              (applyCol hdr "MEDIA" to_numeric
                (applyCol hdr "PRECIO" to_numeric
                  (applyCol hdr "AÑO" to_numeric row)))))))
      = transformRow hdr row := by
  induction hdr with
  | nil => intro row; exact (transformRow_nil_hdr row).symm
  | cons c cs ih =>
    intro row
    cases row with
    | nil => rfl
    | cons v vs =>
      simp only [applyCol]
      rw [ih vs]
      rfl

/-- Normal form of clean_data: the surviving rows are the first occurrences
of the distinct input rows, each transformed cellwise by the two column
loops, and the header is unchanged. -/
theorem clean_data_eq (df : Table) :
    clean_data df = ⟨df.header, (drop_duplicates df.rows).map (transformRow df.header)⟩ := by
  cases df with
  | mk hdr rows =>
    show clean_data ⟨hdr, rows⟩ = _
    unfold clean_data
    simp only [numeric_cols, text_cols, List.foldl_cons, List.foldl_nil, setCol_guard]
    simp only [setCol, List.map_map]
    congr 1
    exact List.map_congr_left fun r _ => by
      simpa [Function.comp] using applyCol_chain hdr r

theorem clean_data_header (df : Table) : (clean_data df).header = df.header := by
  rw [clean_data_eq]

theorem stripStr_upperStr_stripStr (s : String) :
    stripStr (upperStr (stripStr s)) = upperStr (stripStr s) := by
  unfold stripStr upperStr
  exact congrArg String.mk (stripL_upper_stripL s.data)

theorem upperStr_idem (s : String) : upperStr (upperStr s) = upperStr s := by
  unfold upperStr
  exact congrArg String.mk (map_upper_idem s.data)

theorem isNumOrMissing_to_numeric (v : Cell) : isNumOrMissing (to_numeric v) = true := by
  cases v with
  | str s => cases h : parseNum s <;> simp [to_numeric, h, isNumOrMissing]
  | num q => rfl
  | missing => rfl

theorem isCleanText_normalize (v : Cell) : isCleanText (normalize_text v) = true := by
  cases v with
  | str s =>
    show isCleanText (.str (upperStr (stripStr s))) = true
    have h1 := stripStr_upperStr_stripStr s
    have h2 : upperStr (upperStr (stripStr s)) = upperStr (stripStr s) := upperStr_idem _
    simp [isCleanText, h1, h2]
  | num q => rfl
  | missing => rfl

/-- Every cell of a cleaned table is the image under transformCell of a cell
of a surviving raw row, at the column name of its position. -/
theorem clean_cell (df : Table) (r : List Cell) (hr : r ∈ (clean_data df).rows)
    (i : Nat) (c : String) (v : Cell)
    (hc : df.header.get? i = some c) (hv : r.get? i = some v) :
    ∃ v0, v = transformCell c v0 := by
  rw [clean_data_eq] at hr
  obtain ⟨r0, hr0, hr0eq⟩ := List.mem_map.mp hr
  rw [← hr0eq, transformRow_get? df.header r0 i] at hv
  cases h0 : r0.get? i with
  | none => rw [h0] at hv; simp at hv
  | some v0 =>
    rw [h0] at hv
    simp only [Option.map_some'] at hv
    rw [hc] at hv
    simp only [Option.some.injEq] at hv
    exact ⟨v0, hv.symm⟩

/-- Stronger form of clean_cell: cells of surviving rows transform forward. -/
theorem transformRow_mem_clean (df : Table) (r0 : List Cell)
    (hr0 : r0 ∈ drop_duplicates df.rows) :
    transformRow df.header r0 ∈ (clean_data df).rows := by
  rw [clean_data_eq]
  exact List.mem_map_of_mem _ hr0

/-- C1 counterexample: cleaning the one-column table with rows
" zelda " and "ZELDA" yields two identical rows "ZELDA", and a second run
of the pipeline deduplicates them, so clean is not idempotent. -/
theorem C1_counterexample :
    clean_data (clean_data ⟨["TÍTULO"], [[Cell.str " zelda "], [Cell.str "ZELDA"]]⟩)
      ≠ clean_data ⟨["TÍTULO"], [[Cell.str " zelda "], [Cell.str "ZELDA"]]⟩ := by
  decide

/-- C1 (amended): a second run of the cleaning pipeline equals a bare
deduplication of the first run's output: the second coercion and
normalization passes change no cells, and only the second deduplication can
remove rows, namely those made identical by normalization.  In particular
clean is idempotent exactly on inputs whose cleaned rows are pairwise
distinct. -/
theorem C1_clean_clean_eq_dedup_clean (df : Table) :
    clean_data (clean_data df)
      = ⟨df.header, drop_duplicates (clean_data df).rows⟩ := by
  rw [clean_data_eq df, clean_data_eq]
  congr 1
  have hfix : ∀ r ∈ drop_duplicates
      ((drop_duplicates df.rows).map (transformRow df.header)),
      transformRow df.header r = r := by
    intro r hr
    have hr2 := (mem_drop_duplicates _ r).mp hr
    obtain ⟨r0, _, hr0eq⟩ := List.mem_map.mp hr2
    rw [← hr0eq, transformRow_idem]
  rw [show (drop_duplicates ((drop_duplicates df.rows).map (transformRow df.header))).map
        (transformRow df.header)
      = (drop_duplicates ((drop_duplicates df.rows).map (transformRow df.header))).map id from
    List.map_congr_left fun r hr => hfix r hr, List.map_id]

/-- C2 counterexample: the cleaned one-column table built from rows
" zelda " and "ZELDA" contains two fully identical rows, violating the
no-duplicate part of the CleanTable invariant. -/
theorem C2_counterexample :
    ¬ cleanTableInv (clean_data ⟨["TÍTULO"], [[Cell.str " zelda "], [Cell.str "ZELDA"]]⟩) := by
  intro h
  have hnd := h.1
  rw [show (clean_data ⟨["TÍTULO"], [[Cell.str " zelda "], [Cell.str "ZELDA"]]⟩).rows
      = [[Cell.str "ZELDA"], [Cell.str "ZELDA"]] from by decide] at hnd
  simp at hnd

/-- C2 (amended): the column invariants of CleanTable hold for every output
of the pipeline (designated numeric columns hold only numbers or missing,
designated text columns hold only trimmed upper-cased strings or missing),
and the deduplication stage output has no duplicate rows; but rows made
identical by the later normalization stage may survive, so the no-duplicate
part fails for the final table. -/
theorem C2_clean_column_invariants (df : Table) :
    (drop_duplicates df.rows).Nodup ∧
    ∀ r ∈ (clean_data df).rows, ∀ i c v,
      df.header.get? i = some c → r.get? i = some v →
      (c ∈ numeric_cols → isNumOrMissing v = true) ∧
      (c ∈ text_cols → isCleanText v = true) := by
  refine ⟨drop_duplicates_nodup df.rows, fun r hr i c v hc hv => ?_⟩
  obtain ⟨v0, rfl⟩ := clean_cell df r hr i c v hc hv
  constructor
  · intro hcn
    rw [transformCell_numeric c hcn]
    exact isNumOrMissing_to_numeric v0
  · intro hct
    rw [transformCell_text c hct]
    exact isCleanText_normalize v0

/-- Witness for C2's amended theorem at a concrete table. -/
theorem C2_clean_column_invariants_witness :
    isNumOrMissing (Cell.num 2020) = true ∧ isCleanText (Cell.str "A") = true := by
  have h := C2_clean_column_invariants ⟨["AÑO", "TÍTULO"], [[Cell.str "2020", Cell.str " a "]]⟩
  refine ⟨?_, ?_⟩
  · exact (h.2 [Cell.num 2020, Cell.str "A"] (by decide) 0 "AÑO" (Cell.num 2020)
      (by decide) (by decide)).1 (by decide)
  · exact (h.2 [Cell.num 2020, Cell.str "A"] (by decide) 1 "TÍTULO" (Cell.str "A")
      (by decide) (by decide)).2 (by decide)

/-- C3: deduplication acts on raw pre-coercion rows; for input rows
A, A, B (with the two A rows identical and B different) the pipeline keeps
the first A and B in order; two unequal raw rows both survive even if they
normalize to the same row; and in general deduplication yields a
duplicate-free subsequence of the input rows containing every input row. -/
theorem C3_dedup_raw_first_occurrence (hdr : List String) (A B : List Cell)
    (hAB : A ≠ B) :
    (clean_data ⟨hdr, [A, A, B]⟩).rows = [transformRow hdr A, transformRow hdr B] ∧
    (clean_data ⟨hdr, [A, B]⟩).rows = [transformRow hdr A, transformRow hdr B] ∧
    ∀ rows : List (List Cell),
      (drop_duplicates rows).Sublist rows ∧
      (drop_duplicates rows).Nodup ∧
      ∀ r, r ∈ drop_duplicates rows ↔ r ∈ rows := by
  have hBA : ¬ (B = A) := fun h => hAB h.symm
  have hd3 : drop_duplicates [A, A, B] = [A, B] := by
    simp [drop_duplicates, dedupAux, hBA]
  have hd2 : drop_duplicates [A, B] = [A, B] := by
    simp [drop_duplicates, dedupAux, hBA]
  refine ⟨?_, ?_, fun rows =>
    ⟨drop_duplicates_sublist rows, drop_duplicates_nodup rows,
      fun r => mem_drop_duplicates rows r⟩⟩
  · rw [clean_data_eq]
    show (drop_duplicates [A, A, B]).map (transformRow hdr) = _
    rw [hd3]
    rfl
  · rw [clean_data_eq]
    show (drop_duplicates [A, B]).map (transformRow hdr) = _
    rw [hd2]
    rfl

/-- Witness for C3 at the spec's own example: the byte-identical rows
" zelda ", " zelda " collapse to one, while the row "ZELDA", distinct only
before normalization, survives next to it. -/
theorem C3_dedup_raw_first_occurrence_witness :
    (clean_data ⟨["TÍTULO"],
        [[Cell.str " zelda "], [Cell.str " zelda "], [Cell.str "ZELDA"]]⟩).rows
      = [[Cell.str "ZELDA"], [Cell.str "ZELDA"]] := by
  have h := C3_dedup_raw_first_occurrence ["TÍTULO"]
    [Cell.str " zelda "] [Cell.str "ZELDA"] (by decide)
  rw [h.1]
  decide

/-- C5: numeric coercion never raises: on every cell it produces a number
or the missing marker, the spec's example column 2020, abc, empty coerces
to 2020, missing, missing, and in every cleaned table every cell of a
designated numeric column is a number or missing. -/
theorem C5_numeric_coercion_never_raises :
    (∀ v : Cell, isNumOrMissing (to_numeric v) = true) ∧
    clean_data ⟨["AÑO"], [[Cell.str "2020"], [Cell.str "abc"], [Cell.str ""]]⟩
      = ⟨["AÑO"], [[Cell.num 2020], [Cell.missing], [Cell.missing]]⟩ ∧
    ∀ df : Table, ∀ r ∈ (clean_data df).rows, ∀ i c v,
      df.header.get? i = some c → c ∈ numeric_cols → r.get? i = some v →
      isNumOrMissing v = true := by
  refine ⟨isNumOrMissing_to_numeric, by decide, fun df r hr i c v hc hcn hv => ?_⟩
  obtain ⟨v0, rfl⟩ := clean_cell df r hr i c v hc hv
  rw [transformCell_numeric c hcn]
  exact isNumOrMissing_to_numeric v0

/-- Witness for C5 at a concrete table with a PRECIO column. -/
theorem C5_numeric_coercion_never_raises_witness :
    isNumOrMissing (Cell.num 7) = true := by
  have h := C5_numeric_coercion_never_raises
  exact h.2.2 ⟨["PRECIO"], [[Cell.str "7"]]⟩ [Cell.num 7] (by decide) 0 "PRECIO"
    (Cell.num 7) (by decide) (by decide) (by decide)

/-- C7 counterexample: the claim states every non-missing cell of a present
designated text column is replaced by its trimmed and upper-cased value;
but a numeric cell (value 5, not missing) under the designated TÍTULO
column makes that column numeric-dtype, on which the pandas str accessor
raises AttributeError instead of computing values: the pipeline crashes at
the normalization line and no cell is replaced by a trimmed upper-cased
value. -/
theorem C7_counterexample :
    "TÍTULO" ∈ text_cols ∧
    colCells (drop_duplicates (Table.mk ["TÍTULO"] [[Cell.num 5]]).rows) 0
      = [Cell.num 5] ∧
    str_accessor_ok [Cell.num 5] = false ∧
    str_strip_upper [Cell.num 5]
      = .error "Can only use .str accessor with string values!" := by
  refine ⟨by decide, by decide, by decide, by decide⟩

/-- C7 (amended): for every designated text column present in the table,
when the column (as the normalization stage sees it, after deduplication)
passes the str accessor validation — it holds a string, or only missing
values, which covers every non-numeric column read_csv produces — the
accessor succeeds and its output column is exactly the cleaned table's
column, in which every string cell is replaced by its trimmed then
upper-cased value and every missing cell passes through unchanged; when the
column is numeric (a number and no string), the accessor raises
AttributeError with the pandas message and the pipeline crashes rather than
normalizing. -/
theorem C7_text_normalization (df : Table) (j : Nat) (c : String)
    (hc : df.header.get? j = some c) (htext : c ∈ text_cols) :
    (str_accessor_ok (colCells (drop_duplicates df.rows) j) = true →
      str_strip_upper (colCells (drop_duplicates df.rows) j)
        = .ok (colCells (clean_data df).rows j) ∧
      List.Forall₂ (fun v w =>
          (∀ s, v = Cell.str s → w = Cell.str (upperStr (stripStr s))) ∧
          (v = Cell.missing → w = Cell.missing))
        (colCells (drop_duplicates df.rows) j)
        (colCells (clean_data df).rows j)) ∧
    (str_accessor_ok (colCells (drop_duplicates df.rows) j) = false →
      str_strip_upper (colCells (drop_duplicates df.rows) j)
        = .error "Can only use .str accessor with string values!") := by
  have hcol : colCells (clean_data df).rows j
      = (colCells (drop_duplicates df.rows) j).map normalize_text := by
    rw [clean_data_eq]
    simp only []
    unfold colCells
    rw [List.filterMap_map, List.map_filterMap]
    refine List.filterMap_congr ?_
    intro r hr
    show (transformRow df.header r).get? j = (r.get? j).map normalize_text
    rw [transformRow_get?, hc]
    cases hg : r.get? j with
    | none => rfl
    | some v =>
      simp only [Option.map_some']
      rw [Option.some.injEq]
      show transformCell c v = normalize_text v
      exact transformCell_text c htext v
  refine ⟨?_, ?_⟩
  · intro hok
    refine ⟨?_, ?_⟩
    · unfold str_strip_upper
      rw [if_pos hok, hcol]
    · rw [hcol]
      rw [List.forall₂_map_right_iff, List.forall₂_same]
      intro v hv
      constructor
      · intro s hs
        rw [hs]
        rfl
      · intro hm
        rw [hm]
        rfl
  · intro hbad
    unfold str_strip_upper
    rw [if_neg (by simp [hbad])]

/-- Witness for C7's amended theorem: at the spec's example table the
TÍTULO column passes the accessor validation and normalizes to ZELDA and
MARIO. -/
theorem C7_text_normalization_witness :
    str_strip_upper (colCells (drop_duplicates
        (Table.mk ["TÍTULO"] [[Cell.str " zelda "], [Cell.str "Mario"]]).rows) 0)
      = .ok [Cell.str "ZELDA", Cell.str "MARIO"] := by
  have h := ((C7_text_normalization
      ⟨["TÍTULO"], [[Cell.str " zelda "], [Cell.str "Mario"]]⟩
      0 "TÍTULO" (by decide) (by decide)).1 (by decide)).1
  rw [h]
  decide

/-- C9: the pipeline passes through every column that is in neither
designated set: the header (column set and order) is unchanged, every
surviving row keeps its length, its transform is a row of the output, and
cells under non-designated column names are exactly the input cells. -/
theorem C9_non_designated_columns_unchanged (df : Table) :
    (clean_data df).header = df.header ∧
    ∀ r0 ∈ drop_duplicates df.rows,
      transformRow df.header r0 ∈ (clean_data df).rows ∧
      (transformRow df.header r0).length = r0.length ∧
      ∀ i c, df.header.get? i = some c → c ∉ numeric_cols → c ∉ text_cols →
        (transformRow df.header r0).get? i = r0.get? i := by
  refine ⟨clean_data_header df, fun r0 hr0 =>
    ⟨transformRow_mem_clean df r0 hr0, transformRow_length _ _, ?_⟩⟩
  intro i c hc h1 h2
  rw [transformRow_get? df.header r0 i]
  cases h0 : r0.get? i with
  | none => rfl
  | some v0 =>
    rw [Option.map_some', hc]
    show some (transformCell c v0) = some v0
    rw [transformCell_other c h1 h2]

/-- Witness for C9 at a concrete table with a non-designated column X. -/
theorem C9_non_designated_columns_unchanged_witness :
    (transformRow ["X"] [Cell.str " a "]).get? 0 = some (Cell.str " a ") := by
  have h := C9_non_designated_columns_unchanged ⟨["X"], [[Cell.str " a "]]⟩
  exact (h.2 [Cell.str " a "] (by decide)).2.2 0 "X" (by decide) (by decide) (by decide)

/-- C4: the detected delimiter is always comma or semicolon, it is comma
exactly when the first line holds strictly more commas than semicolons (a
tie gives semicolon), and both entry points compute it by this rule: the
path-based detector on the first line of the decoded file, and the upload
loader on the first line of the decoded buffer before calling the reader. -/
theorem C4_delimiter_choice (line : String) (enc : String) (text : String)
    (dec : List Nat → Except String String) (raw : List Nat) :
    (delimitadorOf line = ',' ∨ delimitadorOf line = ';') ∧
    (delimitadorOf line = ',' ↔ countChar ',' line > countChar ';' line) ∧
    (detect_file_properties enc text).2 = delimitadorOf (firstLine text) ∧
    ∀ s, dec raw = .ok s →
      load_uploaded_file dec raw =
        match read_csv (delimitadorOf (firstLine s)) s with
        | .ok df => .ok (.ok df)
        | .error e => .error e := by
  refine ⟨?_, ?_, rfl, fun s hs => ?_⟩
  · unfold delimitadorOf
    split
    · exact Or.inl rfl
    · exact Or.inr rfl
  · unfold delimitadorOf
    split
    · next h => exact iff_of_true rfl h
    · next h =>
      refine iff_of_false (fun he => ?_) h
      have : (';' : Char) = ',' := he ▸ rfl
      simp at this
  · unfold load_uploaded_file
    rw [hs]

/-- Witness for C4 at a concrete line, buffer and decoder. -/
theorem C4_delimiter_choice_witness :
    load_uploaded_file (fun _ => Except.ok "A;B\nx;y\n") []
      = Except.ok (Except.ok ⟨["A", "B"], [[Cell.str "x", Cell.str "y"]]⟩) := by
  have h := (C4_delimiter_choice "A;B\n" "utf-8" "A;B\nx;y\n"
    (fun _ => Except.ok "A;B\nx;y\n") []).2.2.2 "A;B\nx;y\n" rfl
  rw [h]
  decide

/-- C6: when decoding with the detected encoding fails, the loader makes
exactly one fallback attempt with Latin-1 (which itself always decodes):
the outcome is fully determined by that single attempt, a parse failure of
the fallback is caught and surfaced as a user-visible message carrying the
underlying cause (not an escaping exception), and no further retry exists. -/
theorem C6_latin1_fallback_once (dec : List Nat → Except String String)
    (raw : List Nat) (err : String) (h : dec raw = .error err) :
    load_uploaded_file dec raw =
      (match read_csv (delimitadorOf (firstLine (decodeLatin1 raw))) (decodeLatin1 raw) with
       | .ok df => .ok (.ok df)
       | .error e => .ok (.error ("No se pudo decodificar el archivo: " ++ e))) ∧
    ((∃ df, load_uploaded_file dec raw = .ok (.ok df)) ∨
      ∃ msg, load_uploaded_file dec raw = .ok (.error msg)) := by
  have heq : load_uploaded_file dec raw =
      (match read_csv (delimitadorOf (firstLine (decodeLatin1 raw))) (decodeLatin1 raw) with
       | .ok df => .ok (.ok df)
       | .error e => .ok (.error ("No se pudo decodificar el archivo: " ++ e))) := by
    unfold load_uploaded_file
    rw [h]
  refine ⟨heq, ?_⟩
  rw [heq]
  cases read_csv (delimitadorOf (firstLine (decodeLatin1 raw))) (decodeLatin1 raw) with
  | ok df => exact Or.inl ⟨df, rfl⟩
  | error e => exact Or.inr ⟨"No se pudo decodificar el archivo: " ++ e, rfl⟩

/-- Witness for C6: a decoder that always fails, a buffer that decodes to
a small comma CSV under Latin-1; the single fallback attempt succeeds. -/
theorem C6_latin1_fallback_once_witness :
    load_uploaded_file (fun _ => Except.error "boom") [65, 44, 66, 10, 120, 44, 49, 10]
      = Except.ok (Except.ok ⟨["A", "B"], [[Cell.str "x", Cell.num 1]]⟩) := by
  have h := C6_latin1_fallback_once (fun _ => Except.error "boom")
    [65, 44, 66, 10, 120, 44, 49, 10] "boom" rfl
  rw [h.1]
  decide

theorem getRef_lt (h : Heap) (r : Nat) (t : Table) (hr : h.getRef r = some t) :
    r < h.tables.length := by
  by_contra hge
  rw [Heap.getRef, List.get?_eq_none.mpr (Nat.le_of_not_lt hge)] at hr
  exact Option.noConfusion hr

theorem setColH_getRef_ne (h : Heap) (r r' : Nat) (col : String) (f : Cell → Cell)
    (hne : r' ≠ r) : (setColH h r col f).getRef r' = h.getRef r' := by
  unfold setColH
  cases hg : h.getRef r with
  | none => rfl
  | some t =>
    show (h.tables.set r (setCol t col f)).get? r' = h.tables.get? r'
    rw [List.get?_set_ne _ _ (fun he => hne he.symm)]

theorem setColH_getRef_self (h : Heap) (r : Nat) (col : String) (f : Cell → Cell)
    (t : Table) (hg : h.getRef r = some t) :
    (setColH h r col f).getRef r = some (setCol t col f) := by
  unfold setColH
  rw [hg]
  show (h.tables.set r (setCol t col f)).get? r = _
  rw [List.get?_set_eq_of_lt _ (getRef_lt h r t hg)]

/-- One guarded column assignment of the heap model tracks the pure one. -/
theorem foldH_tracks (cols : List String) (f : Cell → Cell) (r rdf : Nat)
    (hne : r ≠ rdf) :
    ∀ (hh : Heap) (t d : Table), hh.getRef r = some t → hh.getRef rdf = some d →
      (cols.foldl (fun a col =>
          if col ∈ headerAt a rdf then setColH a rdf col f else a) hh).getRef r = some t ∧
      (cols.foldl (fun a col =>
          if col ∈ headerAt a rdf then setColH a rdf col f else a) hh).getRef rdf
        = some (cols.foldl (fun d col =>
            if col ∈ d.header then setCol d col f else d) d) := by
  induction cols with
  | nil => intro hh t d hr hd; exact ⟨hr, hd⟩
  | cons c cs ih =>
    intro hh t d hr hd
    have hhead : headerAt hh rdf = d.header := by
      unfold headerAt
      rw [hd]
    simp only [List.foldl_cons, hhead]
    by_cases hc : c ∈ d.header
    · rw [if_pos hc, if_pos hc]
      exact ih (setColH hh rdf c f) t (setCol d c f)
        (by rw [setColH_getRef_ne hh rdf r c f hne]; exact hr)
        (setColH_getRef_self hh rdf c f d hd)
    · rw [if_neg hc, if_neg hc]
      exact ih hh t d hr hd

/-- C10: the pipeline does not mutate its input: after running the heap
level clean_data on a reference, that reference still holds the original
table, because drop_duplicates allocates a fresh frame and every column
write targets the fresh frame; moreover the returned reference holds
exactly the pure clean_data of the input. -/
theorem C10_no_input_mutation (h : Heap) (r : Nat) (t : Table)
    (hr : h.getRef r = some t) :
    ((clean_dataH h r).1).getRef r = some t ∧
    ((clean_dataH h r).1).getRef (clean_dataH h r).2 = some (clean_data t) := by
  have hlt : r < h.tables.length := getRef_lt h r t hr
  have hdrop : dropDuplicatesH h r
      = (⟨h.tables ++ [⟨t.header, drop_duplicates t.rows⟩]⟩, h.tables.length) := by
    unfold dropDuplicatesH
    rw [hr]
    rfl
  have hne : r ≠ h.tables.length := Nat.ne_of_lt hlt
  have h1r : (⟨h.tables ++ [⟨t.header, drop_duplicates t.rows⟩]⟩ : Heap).getRef r
      = some t := by
    show (h.tables ++ _).get? r = some t
    rw [List.get?_append hlt]
    exact hr
  have h1d : (⟨h.tables ++ [⟨t.header, drop_duplicates t.rows⟩]⟩ : Heap).getRef
      h.tables.length = some ⟨t.header, drop_duplicates t.rows⟩ := by
    show (h.tables ++ _).get? h.tables.length = _
    rw [List.get?_concat_length]
  have hkey : clean_dataH h r =
      (text_cols.foldl (fun a col =>
          if col ∈ headerAt a h.tables.length
          then setColH a h.tables.length col normalize_text else a)
        (numeric_cols.foldl (fun a col =>
          if col ∈ headerAt a h.tables.length
          then setColH a h.tables.length col to_numeric else a)
          ⟨h.tables ++ [⟨t.header, drop_duplicates t.rows⟩]⟩),
        h.tables.length) := by
    unfold clean_dataH
    rw [hdrop]
  have hpure : clean_data t =
      text_cols.foldl (fun d col =>
          if col ∈ d.header then setCol d col normalize_text else d)
        (numeric_cols.foldl (fun d col =>
          if col ∈ d.header then setCol d col to_numeric else d)
          ⟨t.header, drop_duplicates t.rows⟩) := rfl
  rw [hkey, hpure]
  simp only []
  set H1 : Heap := ⟨h.tables ++ [⟨t.header, drop_duplicates t.rows⟩]⟩ with hH1
  set D1 : Table := ⟨t.header, drop_duplicates t.rows⟩ with hD1
  set n := h.tables.length with hn
  have hnum := foldH_tracks numeric_cols to_numeric r n hne H1 t D1 h1r h1d
  have htxt := foldH_tracks text_cols normalize_text r n hne _ t _ hnum.1 hnum.2
  exact htxt

/-- Witness for C10 at a concrete one-frame heap. -/
theorem C10_no_input_mutation_witness :
    ((clean_dataH ⟨[⟨["AÑO"], [[Cell.str "2020"]]⟩]⟩ 0).1).getRef 0
      = some ⟨["AÑO"], [[Cell.str "2020"]]⟩ := by
  exact (C10_no_input_mutation ⟨[⟨["AÑO"], [[Cell.str "2020"]]⟩]⟩ 0
    ⟨["AÑO"], [[Cell.str "2020"]]⟩ rfl).1

theorem toNat_ofNat_small (n : Nat) (h : n < 55296) : (Char.ofNat n).toNat = n := by
  have hv : n.isValidChar := by
    unfold Nat.isValidChar
    exact Or.inl h
  simp [Char.ofNat, hv]
  rfl

theorem natDigitsAux_val (fuel : Nat) :
    ∀ n, n ≤ fuel → valLE (natDigitsAux fuel n) = n := by
  induction fuel with
  | zero =>
    intro n hn
    cases n with
    | zero => rfl
    | succ m => omega
  | succ f ih =>
    intro n hn
    cases n with
    | zero => rfl
    | succ m =>
      show (m + 1) % 10 + 10 * valLE (natDigitsAux f ((m + 1) / 10)) = m + 1
      rw [ih ((m + 1) / 10) (by
        have := Nat.div_lt_self (Nat.succ_pos m) (by norm_num : (1 : Nat) < 10)
        omega)]
      omega

theorem natDigitsAux_lt (fuel : Nat) :
    ∀ n, ∀ d ∈ natDigitsAux fuel n, d < 10 := by
  induction fuel with
  | zero =>
    intro n d hd
    cases n <;> simp [natDigitsAux] at hd
  | succ f ih =>
    intro n d hd
    cases n with
    | zero => simp [natDigitsAux] at hd
    | succ m =>
      rcases List.mem_cons.mp hd with rfl | hmem
      · exact Nat.mod_lt _ (by norm_num)
      · exact ih ((m + 1) / 10) d hmem

theorem digitsVal_foldl_start (B : List Char) :
    ∀ a, B.foldl (fun a c => 10 * a + (c.toNat - 48)) a
      = a * 10 ^ B.length + digitsVal B := by
  induction B with
  | nil => intro a; simp [digitsVal]
  | cons c B ih =>
    intro a
    show B.foldl _ (10 * a + (c.toNat - 48)) = a * 10 ^ (B.length + 1) + digitsVal (c :: B)
    rw [ih (10 * a + (c.toNat - 48))]
    have hcB : digitsVal (c :: B) = (c.toNat - 48) * 10 ^ B.length + digitsVal B := by
      show B.foldl _ (10 * 0 + (c.toNat - 48)) = _
      rw [ih (10 * 0 + (c.toNat - 48))]
      ring
    rw [hcB]
    ring

theorem digitsVal_append (A B : List Char) :
    digitsVal (A ++ B) = digitsVal A * 10 ^ B.length + digitsVal B := by
  show (A ++ B).foldl _ 0 = _
  rw [List.foldl_append, digitsVal_foldl_start]
  rfl

theorem digitChar_toNat (d : Nat) (h : d < 10) : (digitChar d).toNat = 48 + d := by
  unfold digitChar
  exact toNat_ofNat_small (48 + d) (by omega)

theorem digitChar_isDigit (d : Nat) (h : d < 10) : isDigitC (digitChar d) = true := by
  unfold isDigitC
  rw [digitChar_toNat d h]
  simp
  omega

theorem digitsVal_rev_map (L : List Nat) (hL : ∀ d ∈ L, d < 10) :
    digitsVal ((L.map digitChar).reverse) = valLE L := by
  induction L with
  | nil => rfl
  | cons d L ih =>
    rw [List.map_cons, List.reverse_cons, digitsVal_append,
      ih fun x hx => hL x (List.mem_cons_of_mem d hx)]
    show valLE L * 10 ^ 1 + digitsVal [digitChar d] = d + 10 * valLE L
    have hd : digitsVal [digitChar d] = d := by
      show 10 * 0 + ((digitChar d).toNat - 48) = d
      rw [digitChar_toNat d (hL d (List.mem_cons_self d L))]
      omega
    rw [hd]
    ring

theorem digitsVal_natDigits (n : Nat) : digitsVal (natDigits n) = n := by
  unfold natDigits
  split
  · next h => rw [h]; rfl
  · rw [digitsVal_rev_map _ (natDigitsAux_lt n n), natDigitsAux_val n n (le_refl n)]

theorem natDigits_digits (n : Nat) : ∀ c ∈ natDigits n, isDigitC c = true := by
  unfold natDigits
  split
  · intro c hc
    rw [List.mem_singleton.mp hc]
    rfl
  · intro c hc
    rw [List.mem_reverse] at hc
    obtain ⟨d, hd, rfl⟩ := List.mem_map.mp hc
    exact digitChar_isDigit d (natDigitsAux_lt n n d hd)

theorem digitsVal_replicate_zero (j : Nat) :
    digitsVal (List.replicate j '0') = 0 := by
  induction j with
  | zero => rfl
  | succ i ih =>
    show digitsVal ('0' :: List.replicate i '0') = 0
    show (List.replicate i '0').foldl _ (10 * 0 + ('0'.toNat - 48)) = 0
    rw [digitsVal_foldl_start, ih]
    simp

theorem digitsVal_padZeros (k : Nat) (ds : List Char) :
    digitsVal (padZeros k ds) = digitsVal ds := by
  unfold padZeros
  rw [digitsVal_append, digitsVal_replicate_zero]
  ring

theorem padZeros_digits (k : Nat) (ds : List Char)
    (h : ∀ c ∈ ds, isDigitC c = true) :
    ∀ c ∈ padZeros k ds, isDigitC c = true := by
  intro c hc
  rcases List.mem_append.mp hc with hc1 | hc2
  · rw [List.eq_of_mem_replicate hc1]
    rfl
  · exact h c hc2

theorem padZeros_length (k : Nat) (ds : List Char) :
    k ≤ (padZeros k ds).length := by
  unfold padZeros
  rw [List.length_append, List.length_replicate]
  omega

theorem dvd_ten_pow_self : ∀ d : Nat, (∃ n, d ∣ 10 ^ n) → d ∣ 10 ^ d := by
  intro d
  induction d using Nat.strong_induction_on with
  | _ d ih =>
    rintro ⟨n, hn⟩
    rcases Nat.eq_zero_or_pos d with rfl | dpos
    · have h0 := Nat.eq_zero_of_zero_dvd hn
      have : (0 : Nat) < 10 ^ n := Nat.pos_pow_of_pos n (by norm_num)
      omega
    by_cases hd1 : d = 1
    · rw [hd1]
      exact one_dvd _
    obtain ⟨p, hp, hpd⟩ := Nat.exists_prime_and_dvd hd1
    have hp10 : p ∣ 10 := hp.dvd_of_dvd_pow (hpd.trans hn)
    have hdm : d / p * p = d := Nat.div_mul_cancel hpd
    have hm_lt : d / p < d := Nat.div_lt_self dpos hp.one_lt
    have hm_pos : 0 < d / p := Nat.div_pos (Nat.le_of_dvd dpos hpd) hp.pos
    have hm_dvd : d / p ∣ 10 ^ n := dvd_trans ⟨p, hdm.symm⟩ hn
    have ihm := ih (d / p) hm_lt ⟨n, hm_dvd⟩
    have hdp : p * (d / p) = d := by rw [mul_comm]; exact hdm
    have hstep : d ∣ 10 ^ (d / p + 1) := by
      rw [pow_succ']
      calc d = p * (d / p) := hdp.symm
        _ ∣ 10 * 10 ^ (d / p) := mul_dvd_mul hp10 ihm
    refine hstep.trans (pow_dvd_pow 10 ?_)
    have h2 : 2 * (d / p) ≤ p * (d / p) := Nat.mul_le_mul_right _ hp.two_le
    omega

theorem dvd_ten_pow_decExp (d : Nat) (h : ∃ n, d ∣ 10 ^ n) :
    d ∣ 10 ^ decExp d := by
  have hd := dvd_ten_pow_self d h
  unfold decExp
  cases hf : (List.range (d + 1)).find? (fun k => decide (d ∣ 10 ^ k)) with
  | some k =>
    have := List.find?_some hf
    simp at this
    simpa using this
  | none =>
    exfalso
    have := List.find?_eq_none.mp hf d (List.mem_range.mpr (by omega))
    simp at this
    exact this hd

theorem isSpace_of_digit (c : Char) (h : isDigitC c = true) : isSpace c = false := by
  unfold isDigitC at h
  unfold isSpace
  simp at h
  simp
  omega

theorem stripL_eq_self (l : List Char) (h : ∀ c ∈ l, isSpace c = false) :
    stripL l = l := by
  unfold stripL dropTrail
  have h1 : l.dropWhile isSpace = l := by
    cases l with
    | nil => rfl
    | cons c cs =>
      rw [List.dropWhile_cons, if_neg (by simp [h c (List.mem_cons_self c cs)])]
  rw [h1]
  have h2 : l.reverse.dropWhile isSpace = l.reverse := by
    cases hr : l.reverse with
    | nil => rfl
    | cons c cs =>
      have hc : c ∈ l := by
        rw [← List.mem_reverse, hr]
        exact List.mem_cons_self c cs
      rw [List.dropWhile_cons, if_neg (by simp [h c hc])]
  rw [h2, List.reverse_reverse]

theorem takeWhile_digits_split (T R : List Char) (x : Char)
    (hT : ∀ c ∈ T, isDigitC c = true) (hx : isDigitC x = false) :
    (T ++ x :: R).takeWhile isDigitC = T ∧ (T ++ x :: R).dropWhile isDigitC = x :: R := by
  induction T with
  | nil =>
    constructor
    · rw [List.nil_append, List.takeWhile_cons, if_neg (by simp [hx])]
    · rw [List.nil_append, List.dropWhile_cons, if_neg (by simp [hx])]
  | cons c T ih =>
    have hc : isDigitC c = true := hT c (List.mem_cons_self c T)
    have ihr := ih fun d hd => hT d (List.mem_cons_of_mem c hd)
    constructor
    · rw [List.cons_append, List.takeWhile_cons, if_pos (by simp [hc]), ihr.1]
    · rw [List.cons_append, List.dropWhile_cons, if_pos (by simp [hc]), ihr.2]

theorem parseUnsignedParts_digits (T : List Char)
    (hT : ∀ c ∈ T, isDigitC c = true) (hne : T ≠ []) :
    parseUnsignedParts T = some (digitsVal T, 1) := by
  unfold parseUnsignedParts
  have h1 : T.takeWhile isDigitC = T := List.takeWhile_eq_self_iff.mpr hT
  have h2 : T.dropWhile isDigitC = [] := by
    rw [List.dropWhile_eq_nil_iff]
    exact hT
  rw [h2, h1]
  simp [hne]

theorem parseUnsignedParts_decimal (T D : List Char)
    (hT : ∀ c ∈ T, isDigitC c = true) (hD : ∀ c ∈ D, isDigitC c = true)
    (hne : T ≠ []) :
    parseUnsignedParts (T ++ '.' :: D)
      = some (digitsVal T * 10 ^ D.length + digitsVal D, 10 ^ D.length) := by
  unfold parseUnsignedParts
  obtain ⟨h1, h2⟩ := takeWhile_digits_split T D '.' hT (by rfl)
  rw [h2, h1]
  have hall : D.all isDigitC = true := List.all_eq_true.mpr hD
  simp [hall, hne]

theorem parseNum_def (l : List Char) :
    parseNum ⟨l⟩
      = (match stripL l with
        | '-' :: u => (parseUnsignedParts u).map (fun p => mkRat (-(p.1 : Int)) p.2)
        | '+' :: u => (parseUnsignedParts u).map (fun p => mkRat (p.1 : Int) p.2)
        | u => (parseUnsignedParts u).map (fun p => mkRat (p.1 : Int) p.2)) := rfl

theorem parseNum_render (neg : Bool) (T D : List Char)
    (hT : ∀ c ∈ T, isDigitC c = true) (hD : ∀ c ∈ D, isDigitC c = true)
    (hTne : T ≠ []) :
    parseNum ⟨(if neg then ['-'] else [])
        ++ (T ++ (if D.length = 0 then [] else '.' :: D))⟩
      = some (mkRat ((if neg then -1 else 1)
          * (digitsVal T * 10 ^ D.length + digitsVal D : Nat)) (10 ^ D.length)) := by
  have hbody : ∀ c ∈ T ++ (if D.length = 0 then [] else '.' :: D), isSpace c = false := by
    intro c hc
    rcases List.mem_append.mp hc with hc1 | hc2
    · exact isSpace_of_digit c (hT c hc1)
    · split at hc2
      · simp at hc2
      · rcases List.mem_cons.mp hc2 with rfl | hc3
        · rfl
        · exact isSpace_of_digit c (hD c hc3)
  have hparts : parseUnsignedParts (T ++ (if D.length = 0 then [] else '.' :: D))
      = some ((digitsVal T * 10 ^ D.length + digitsVal D : Nat), 10 ^ D.length) := by
    by_cases hd0 : D.length = 0
    · have hDnil : D = [] := List.length_eq_zero.mp hd0
      rw [if_pos hd0, List.append_nil, parseUnsignedParts_digits T hT hTne, hDnil]
      show _ = some (digitsVal T * 10 ^ (0:Nat) + digitsVal [], 10 ^ (0:Nat))
      norm_num
      rfl
    · rw [if_neg hd0, parseUnsignedParts_decimal T D hT hD hTne]
  cases neg with
  | true =>
    rw [if_pos (by decide : (true : Bool) = true)]
    have hall : ∀ c ∈ ('-' :: (T ++ (if D.length = 0 then [] else '.' :: D))),
        isSpace c = false := by
      intro c hc
      rcases List.mem_cons.mp hc with rfl | hc2
      · rfl
      · exact hbody c hc2
    rw [show (['-'] ++ (T ++ (if D.length = 0 then [] else '.' :: D)))
        = '-' :: (T ++ (if D.length = 0 then [] else '.' :: D)) from rfl]
    rw [parseNum_def, stripL_eq_self _ hall]
    show (parseUnsignedParts _).map _ = _
    rw [hparts]
    simp only [Option.map_some']
    congr 2
    simp
  | false =>
    rw [if_neg (by decide : ¬ ((false : Bool) = true))]
    rw [List.nil_append, parseNum_def, stripL_eq_self _ hbody]
    obtain ⟨c, T2, rfl⟩ : ∃ c T2, T = c :: T2 := by
      cases T with
      | nil => exact absurd rfl hTne
      | cons c T2 => exact ⟨c, T2, rfl⟩
    have hcdig : isDigitC c = true := hT c (List.mem_cons_self c T2)
    have hcm : ¬ (c = '-') := by
      intro h
      rw [h] at hcdig
      exact absurd hcdig (by decide)
    have hcp : ¬ (c = '+') := by
      intro h
      rw [h] at hcdig
      exact absurd hcdig (by decide)
    split
    · next u heq =>
      exfalso
      rw [List.cons_append] at heq
      exact hcm (List.head_eq_of_cons_eq heq ▸ rfl)
    · next u heq =>
      exfalso
      rw [List.cons_append] at heq
      exact hcp (List.head_eq_of_cons_eq heq ▸ rfl)
    · next heq =>
      rw [hparts]
      simp only [Option.map_some']
      congr 2
      simp

theorem mkRat_sign_eq (q : Rat) (k m : Nat)
    (hm : m * q.den = q.num.natAbs * 10 ^ k) :
    mkRat ((if q.num < 0 then -1 else 1) * (m : Int)) (10 ^ k) = q := by
  have h10 : (((10 : Nat) ^ k : Nat) : Rat) ≠ 0 := by
    rw [Nat.cast_ne_zero]
    positivity
  have hden : ((q.den : Nat) : Rat) ≠ 0 := Nat.cast_ne_zero.mpr q.den_nz
  have hmQ : (m : Rat) * (q.den : Rat) = (q.num.natAbs : Rat) * ((10 : Rat)) ^ k := by
    exact_mod_cast congrArg (fun x : Nat => (x : Rat)) hm
  have key : ((((if q.num < 0 then -1 else 1) * m : Int)) : Rat) / (((10 : Nat) ^ k : Nat) : Rat)
      = (q.num : Rat) / (q.den : Rat) := by
    rw [div_eq_div_iff h10 hden]
    by_cases hneg : q.num < 0
    · rw [if_pos hneg]
      have hNA : ((q.num.natAbs : Nat) : Rat) = -(q.num : Rat) := by
        have h1 : ((q.num.natAbs : Int) : Rat) = ((-q.num : Int) : Rat) :=
          congrArg (fun x : Int => (x : Rat)) (Int.ofNat_natAbs_of_nonpos (le_of_lt hneg))
        rw [Int.cast_natCast, Int.cast_neg] at h1
        exact h1
      rw [hNA] at hmQ
      push_cast
      linear_combination -hmQ
    · rw [if_neg hneg]
      have hNA : ((q.num.natAbs : Nat) : Rat) = (q.num : Rat) := by
        have h1 : ((q.num.natAbs : Int) : Rat) = ((q.num : Int) : Rat) :=
          congrArg (fun x : Int => (x : Rat)) (Int.natAbs_of_nonneg (le_of_not_lt hneg))
        rw [Int.cast_natCast] at h1
        exact h1
      rw [hNA] at hmQ
      push_cast
      linear_combination hmQ
  calc mkRat ((if q.num < 0 then -1 else 1) * (m : Int)) (10 ^ k)
      = ((((if q.num < 0 then -1 else 1) * m : Int)) : Rat) / (((10 : Nat) ^ k : Nat) : Rat) := by
        rw [Rat.mkRat_eq_div]
    _ = (q.num : Rat) / (q.den : Rat) := key
    _ = q := Rat.num_div_den q

theorem parseNum_showNum (q : Rat) (hq : ∃ n, q.den ∣ 10 ^ n) :
    parseNum ⟨showNum q⟩ = some q := by
  have hdvd : q.den ∣ 10 ^ decExp q.den := dvd_ten_pow_decExp q.den hq
  set k := decExp q.den with hk
  set m := q.num.natAbs * 10 ^ k / q.den with hmdef
  set ds := padZeros (k + 1) (natDigits m) with hdsdef
  have hds_dig : ∀ c ∈ ds, isDigitC c = true := padZeros_digits _ _ (natDigits_digits m)
  have hds_val : digitsVal ds = m := by
    rw [hdsdef, digitsVal_padZeros, digitsVal_natDigits]
  have hds_len : k + 1 ≤ ds.length := padZeros_length _ _
  set T := ds.take (ds.length - k) with hTdef
  set D := ds.drop (ds.length - k) with hDdef
  have hTD : T ++ D = ds := List.take_append_drop _ _
  have hD_len : D.length = k := by
    rw [hDdef, List.length_drop]
    omega
  have hT_dig : ∀ c ∈ T, isDigitC c = true := fun c hc => hds_dig c (List.mem_of_mem_take hc)
  have hD_dig : ∀ c ∈ D, isDigitC c = true := fun c hc => hds_dig c (List.mem_of_mem_drop hc)
  have hT_len : T.length = ds.length - k := by
    rw [hTdef, List.length_take]
    omega
  have hT_ne : T ≠ [] := by
    intro h
    rw [h] at hT_len
    simp at hT_len
    omega
  have hval : digitsVal T * 10 ^ k + digitsVal D = m := by
    rw [← hD_len, ← digitsVal_append, hTD, hds_val]
  have hm_eq : m * q.den = q.num.natAbs * 10 ^ k :=
    Nat.div_mul_cancel (Dvd.dvd.mul_left hdvd _)
  have hshow : showNum q
      = (if q.num < 0 then ['-'] else []) ++ (T ++ (if k = 0 then [] else '.' :: D)) := rfl
  by_cases hneg : q.num < 0
  · have hlem := parseNum_render true T D hT_dig hD_dig hT_ne
    rw [hD_len] at hlem
    rw [show (if (true : Bool) then ['-'] else ([] : List Char)) = ['-'] from rfl] at hlem
    rw [hshow, if_pos hneg, hlem]
    congr 1
    rw [hval]
    have hfin := mkRat_sign_eq q k m hm_eq
    rw [if_pos hneg] at hfin
    simpa using hfin
  · have hlem := parseNum_render false T D hT_dig hD_dig hT_ne
    rw [hD_len] at hlem
    rw [show (if (false : Bool) then ['-'] else ([] : List Char)) = [] from rfl,
      List.nil_append] at hlem
    rw [hshow, if_neg hneg, List.nil_append, hlem]
    congr 1
    rw [hval]
    have hfin := mkRat_sign_eq q k m hm_eq
    rw [if_neg hneg] at hfin
    simpa using hfin

theorem splitSep_nil (sep : Char) (inQ : Bool) (acc : List Char) :
    splitSep sep inQ acc [] = [acc.reverse] := by
  cases inQ <;> rfl

theorem splitSep_false_cons (sep c : Char) (acc cs : List Char) :
    splitSep sep false acc (c :: cs)
      = if c = sep then acc.reverse :: splitSep sep false [] cs
        else splitSep sep (decide (c = '"')) (c :: acc) cs := rfl

theorem splitSep_true_cons (sep c : Char) (acc cs : List Char) :
    splitSep sep true acc (c :: cs)
      = splitSep sep (decide ¬ (c = '"')) (c :: acc) cs := rfl

theorem splitSep_escQuotes (sep : Char) (hq : ¬ (sep = '"')) (s : List Char) :
    ∀ acc rest, splitSep sep true acc (escapeQuotes s ++ rest)
      = splitSep sep true ((escapeQuotes s).reverse ++ acc) rest := by
  induction s with
  | nil => intro acc rest; simp [escapeQuotes]
  | cons c cs ih =>
    intro acc rest
    by_cases hc : c = '"'
    · subst hc
      rw [show escapeQuotes ('"' :: cs) = '"' :: '"' :: escapeQuotes cs from by
        simp [escapeQuotes]]
      rw [List.cons_append, List.cons_append, splitSep_true_cons,
        show (decide ¬ (('"' : Char) = '"')) = false from by decide,
        splitSep_false_cons, if_neg (fun h => hq h.symm),
        show (decide (('"' : Char) = '"')) = true from by decide, ih]
      congr 1
      simp
    · rw [show escapeQuotes (c :: cs) = c :: escapeQuotes cs from by
        simp [escapeQuotes, hc]]
      rw [List.cons_append, splitSep_true_cons,
        show (decide ¬ (c = '"')) = true from by simp [hc], ih]
      congr 1
      simp

theorem splitSep_safe_chars (sep : Char) (s : List Char)
    (hs : ∀ c ∈ s, ¬ (c = sep) ∧ ¬ (c = '"')) :
    ∀ acc rest, splitSep sep false acc (s ++ rest)
      = splitSep sep false (s.reverse ++ acc) rest := by
  induction s with
  | nil => intro acc rest; simp
  | cons c cs ih =>
    intro acc rest
    obtain ⟨h1, h2⟩ := hs c (List.mem_cons_self c cs)
    rw [List.cons_append, splitSep_false_cons, if_neg h1,
      show (decide (c = '"')) = false from by simp [h2],
      ih fun d hd => hs d (List.mem_cons_of_mem c hd)]
    congr 1
    simp

theorem needsQuote_false_safe (delim : Char) (s : List Char)
    (h : needsQuote delim s = false) :
    ∀ c ∈ s, ¬ (c = delim) ∧ ¬ (c = '"') ∧ ¬ (c = '\n') ∧ ¬ (c = '\r') := by
  intro c hc
  unfold needsQuote at h
  rw [List.any_eq_false] at h
  have := h c hc
  simp at this
  obtain ⟨⟨⟨a, b⟩, cnl⟩, dcr⟩ := this
  exact ⟨a, b, cnl, dcr⟩

theorem splitSep_renderField (sep delim : Char) (hsep : sep = delim ∨ sep = '\n')
    (hq : ¬ (sep = '"')) (s : List Char) (acc rest : List Char) :
    splitSep sep false acc (renderField delim s ++ rest)
      = splitSep sep false ((renderField delim s).reverse ++ acc) rest := by
  unfold renderField
  by_cases hN : needsQuote delim s
  · rw [if_pos hN, List.cons_append, splitSep_false_cons,
      if_neg (fun h => hq h.symm),
      show (decide (('"' : Char) = '"')) = true from by decide,
      List.append_assoc, show (['"'] ++ rest) = '"' :: rest from rfl,
      splitSep_escQuotes sep hq s, splitSep_true_cons,
      show (decide ¬ (('"' : Char) = '"')) = false from by decide]
    congr 1
    simp
  · rw [if_neg hN]
    apply splitSep_safe_chars
    intro c hc
    have h4 := needsQuote_false_safe delim s (by simpa using hN) c hc
    rcases hsep with rfl | rfl
    · exact ⟨h4.1, h4.2.1⟩
    · exact ⟨h4.2.2.1, h4.2.1⟩

theorem splitSep_record_nl (delim : Char) (hdn : ¬ (delim = '\n'))
    (hdq : ¬ (delim = '"')) (fs : List (List Char)) :
    ∀ acc rest, splitSep '\n' false acc
        (renderRecord delim (fs.map (renderField delim)) ++ rest)
      = splitSep '\n' false
          ((renderRecord delim (fs.map (renderField delim))).reverse ++ acc) rest := by
  induction fs with
  | nil => intro acc rest; simp [renderRecord]
  | cons f fs ih =>
    intro acc rest
    cases fs with
    | nil =>
      show splitSep '\n' false acc (renderRecord delim [renderField delim f] ++ rest) = _
      rw [show renderRecord delim [renderField delim f] = renderField delim f from rfl]
      exact splitSep_renderField '\n' delim (Or.inr rfl) (by decide) f acc rest
    | cons g gs =>
      rw [show renderRecord delim ((f :: g :: gs).map (renderField delim))
          = renderField delim f ++ delim :: renderRecord delim ((g :: gs).map (renderField delim))
          from rfl]
      rw [List.append_assoc, splitSep_renderField '\n' delim (Or.inr rfl) (by decide) f,
        show (delim :: renderRecord delim ((g :: gs).map (renderField delim))) ++ rest
          = delim :: (renderRecord delim ((g :: gs).map (renderField delim)) ++ rest) from rfl,
        splitSep_false_cons, if_neg hdn,
        show (decide (delim = '"')) = false from by simp [hdq],
        ih]
      congr 1
      simp

theorem splitSep_record_fields (delim : Char) (hdq : ¬ (delim = '"'))
    (fs : List (List Char)) (hne : fs ≠ []) :
    splitSep delim false [] (renderRecord delim (fs.map (renderField delim)))
      = fs.map (renderField delim) := by
  induction fs with
  | nil => exact absurd rfl hne
  | cons f fs ih =>
    cases fs with
    | nil =>
      rw [show renderRecord delim ([f].map (renderField delim)) = renderField delim f from rfl,
        show renderField delim f = renderField delim f ++ [] from (List.append_nil _).symm,
        splitSep_renderField delim delim (Or.inl rfl) hdq f, splitSep_nil]
      simp
    | cons g gs =>
      rw [show renderRecord delim ((f :: g :: gs).map (renderField delim))
          = renderField delim f ++ delim :: renderRecord delim ((g :: gs).map (renderField delim))
          from rfl,
        splitSep_renderField delim delim (Or.inl rfl) hdq f,
        splitSep_false_cons, if_pos rfl, ih (by simp)]
      congr 1
      simp

theorem splitSep_lines (delim : Char) (hdn : ¬ (delim = '\n')) (hdq : ¬ (delim = '"'))
    (recs : List (List Char))
    (h : ∀ r ∈ recs, ∃ fs : List (List Char),
      r = renderRecord delim (fs.map (renderField delim))) :
    splitSep '\n' false [] (renderLines recs) = recs ++ [[]] := by
  induction recs with
  | nil => rfl
  | cons r rs ih =>
    obtain ⟨fs, hr⟩ := h r (List.mem_cons_self r rs)
    rw [show renderLines (r :: rs) = r ++ '\n' :: renderLines rs from rfl, hr,
      splitSep_record_nl delim hdn hdq fs, splitSep_false_cons, if_pos rfl,
      ih fun x hx => h x (List.mem_cons_of_mem r hx)]
    congr 1
    simp

theorem escapeQuotes_eq_nil (cs : List Char) :
    escapeQuotes cs = [] ↔ cs = [] := by
  cases cs with
  | nil => simp [escapeQuotes]
  | cons c cs =>
    constructor
    · intro h
      by_cases hc : c = '"' <;> simp [escapeQuotes, hc] at h
    · intro h
      exact absurd h (by simp)

theorem unescape_escape (s : List Char) : unescapeQuotes (escapeQuotes s) = s := by
  induction s with
  | nil => rfl
  | cons c cs ih =>
    by_cases hc : c = '"'
    · subst hc
      rw [show escapeQuotes ('"' :: cs) = '"' :: '"' :: escapeQuotes cs from by
        simp [escapeQuotes]]
      rw [show unescapeQuotes ('"' :: '"' :: escapeQuotes cs)
          = '"' :: unescapeQuotes (escapeQuotes cs) from by
        simp [unescapeQuotes]]
      rw [ih]
    · rw [show escapeQuotes (c :: cs) = c :: escapeQuotes cs from by
        simp [escapeQuotes, hc]]
      cases hX : escapeQuotes cs with
      | nil =>
        have hcs : cs = [] := (escapeQuotes_eq_nil cs).mp hX
        subst hcs
        rfl
      | cons d X =>
        rw [show unescapeQuotes (c :: d :: X) = c :: unescapeQuotes (d :: X) from by
          simp [unescapeQuotes, hc]]
        rw [← hX, ih]

theorem unquoteField_renderField (delim : Char) (s : List Char) :
    unquoteField (renderField delim s) = s := by
  unfold renderField
  by_cases hN : needsQuote delim s
  · rw [if_pos hN]
    show unescapeQuotes (escapeQuotes s ++ ['"']).dropLast = s
    rw [List.dropLast_concat, unescape_escape]
  · rw [if_neg hN]
    unfold unquoteField
    split
    · next rest =>
      exfalso
      exact (needsQuote_false_safe delim ('"' :: rest) (by simpa using hN) '"'
        (List.mem_cons_self _ _)).2.1 rfl
    · rfl

theorem splitSep_ne_nil (sep : Char) (l : List Char) :
    ∀ (inQ : Bool) (acc : List Char), splitSep sep inQ acc l ≠ [] := by
  induction l with
  | nil =>
    intro inQ acc
    rw [splitSep_nil]
    simp
  | cons c cs ih =>
    intro inQ acc
    cases inQ with
    | false =>
      rw [splitSep_false_cons]
      split
      · simp
      · exact ih _ _
    | true =>
      rw [splitSep_true_cons]
      exact ih _ _

theorem mkRat_den_dvd (a : Int) (b : Nat) : (mkRat a b).den ∣ b := by
  rcases Nat.eq_zero_or_pos b with rfl | hb
  · rw [Rat.mkRat_zero]
    exact Dvd.intro 0 rfl
  · rw [Rat.mkRat_eq_divInt]
    exact Int.ofNat_dvd.mp (Rat.den_dvd a b)

theorem parseUnsignedParts_den (l : List Char) (p : Nat × Nat)
    (h : parseUnsignedParts l = some p) : ∃ n, p.2 = 10 ^ n := by
  unfold parseUnsignedParts at h
  split at h
  · simp only [] at h
    split at h
    · exact absurd h (by simp)
    · refine ⟨0, ?_⟩
      rw [pow_zero]
      cases h
      rfl
  · rename_i x fr heq
    simp only [] at h
    split at h
    · refine ⟨fr.length, ?_⟩
      cases h
      rfl
    · exact absurd h (by simp)
  · exact absurd h (by simp)

theorem parseNum_den_ten (s : String) (q : Rat) (h : parseNum s = some q) :
    ∃ n, q.den ∣ 10 ^ n := by
  have hsplit : ∃ (p : Nat × Nat) (a : Int), parseUnsignedParts (stripL s.data).tail = some p ∧ q = mkRat a p.2 ∨
      parseUnsignedParts (stripL s.data) = some p ∧ q = mkRat a p.2 := by
    unfold parseNum at h
    split at h
    · next u heq =>
      rw [Option.map_eq_some'] at h
      obtain ⟨p, hp, hq⟩ := h
      exact ⟨p, -(p.1 : Int), Or.inl ⟨by rw [heq]; exact hp, hq.symm⟩⟩
    · next u heq =>
      rw [Option.map_eq_some'] at h
      obtain ⟨p, hp, hq⟩ := h
      exact ⟨p, (p.1 : Int), Or.inl ⟨by rw [heq]; exact hp, hq.symm⟩⟩
    · rw [Option.map_eq_some'] at h
      obtain ⟨p, hp, hq⟩ := h
      exact ⟨p, (p.1 : Int), Or.inr ⟨hp, hq.symm⟩⟩
  obtain ⟨p, a, hcase⟩ := hsplit
  rcases hcase with ⟨hp, rfl⟩ | ⟨hp, rfl⟩ <;>
    obtain ⟨n, hn⟩ := parseUnsignedParts_den _ p hp <;>
    exact ⟨n, hn ▸ mkRat_den_dvd a p.2⟩

theorem read_csv_shape (delim : Char) (text : String) (df : Table)
    (h : read_csv delim text = .ok df) :
    df.header ≠ [] ∧
    (∀ r ∈ df.rows, r.length = df.header.length) ∧
    (∀ j, colNum df j ∨ colStr df j) ∧
    decimalCells df := by
  unfold read_csv at h
  split at h
  · exact absurd h (by simp)
  · next hrec drecs heq =>
    simp only [] at h
    rw [Except.ok.injEq] at h
    subst h
    simp only []
    refine ⟨?_, ?_, ?_, ?_⟩
    · intro hnil
      rw [List.map_eq_nil] at hnil
      unfold parseFields at hnil
      rw [List.map_eq_nil] at hnil
      exact splitSep_ne_nil delim hrec false [] hnil
    · intro r hr
      obtain ⟨ropt, hropt, rfl⟩ := List.mem_map.mp hr
      rw [List.length_map, List.enum_length]
      obtain ⟨fs, hfs, rfl⟩ := List.mem_map.mp hropt
      unfold optFields
      rw [List.length_append, List.length_map, List.length_replicate]
      have hle := (List.mem_filter.mp hfs).2
      simp only [List.length_map, decide_eq_true_eq] at hle ⊢
      omega
    · intro j
      by_cases hb : numericColB
          (((drecs.map (parseFields delim)).filter
            (fun fs => fs.length ≤ ((parseFields delim hrec).map
              (fun f => (⟨f⟩ : String))).length)).map
            (optFields ((parseFields delim hrec).map (fun f => (⟨f⟩ : String))).length)) j
      · left
        intro r hr v hv
        obtain ⟨ropt, hropt, rfl⟩ := List.mem_map.mp hr
        rw [List.get?_map, List.get?_enum] at hv
        cases hcell : ropt.get? j with
        | none => rw [hcell] at hv; simp at hv
        | some c =>
          rw [hcell] at hv
          simp only [Option.map_some', Option.some.injEq] at hv
          rw [← hv, hb]
          cases c with
          | none => rfl
          | some f =>
            have hc : cellOf true (some f) =
                (match parseNum ⟨f⟩ with
                 | some q => Cell.num q
                 | none => Cell.missing) := rfl
            rw [hc]
            cases parseNum ⟨f⟩ <;> rfl
      · right
        intro r hr v hv
        obtain ⟨ropt, hropt, rfl⟩ := List.mem_map.mp hr
        rw [List.get?_map, List.get?_enum] at hv
        cases hcell : ropt.get? j with
        | none => rw [hcell] at hv; simp at hv
        | some c =>
          rw [hcell] at hv
          simp only [Option.map_some', Option.some.injEq] at hv
          rw [← hv, Bool.eq_false_iff.mpr hb]
          cases c with
          | none => rfl
          | some f =>
            have hc : cellOf false (some f) = Cell.str ⟨f⟩ := rfl
            rw [hc]
            rfl
    · intro r hr v hv q hq
      obtain ⟨ropt, hropt, rfl⟩ := List.mem_map.mp hr
      obtain ⟨pr, hpr, hpr2⟩ := List.mem_map.mp hv
      have hcv := hpr2.trans hq
      unfold cellOf at hcv
      split at hcv
      · exact absurd hcv (by simp)
      · next f =>
        split at hcv
        · split at hcv
          · next q2 hq2 =>
            rw [Cell.num.injEq] at hcv
            rw [hcv] at hq2
            exact parseNum_den_ten _ _ hq2
          · exact absurd hcv (by simp)
        · exact absurd hcv (by simp)

theorem clean_shape (df : Table)
    (hlen : ∀ r ∈ df.rows, r.length = df.header.length)
    (hhomog : ∀ j, colNum df j ∨ colStr df j)
    (hdec : decimalCells df) :
    (∀ r ∈ (clean_data df).rows, r.length = (clean_data df).header.length) ∧
    (∀ j, colNum (clean_data df) j ∨ colStr (clean_data df) j) ∧
    decimalCells (clean_data df) := by
  rw [clean_data_eq]
  refine ⟨?_, ?_, ?_⟩
  · intro r hr
    simp only [] at hr ⊢
    obtain ⟨r0, hr0, rfl⟩ := List.mem_map.mp hr
    rw [transformRow_length]
    exact hlen r0 ((mem_drop_duplicates _ _).mp hr0)
  · intro j
    cases hc : df.header.get? j with
    | none =>
      rcases hhomog j with hn | hs
      · left
        intro r hr v hv
        simp only [] at hr
        obtain ⟨r0, hr0, rfl⟩ := List.mem_map.mp hr
        rw [transformRow_get?, hc] at hv
        cases h0 : r0.get? j with
        | none => rw [h0] at hv; simp at hv
        | some v0 =>
          rw [h0] at hv
          simp only [Option.map_some', Option.some.injEq] at hv
          rw [← hv]
          exact hn r0 ((mem_drop_duplicates _ _).mp hr0) v0 h0
      · right
        intro r hr v hv
        simp only [] at hr
        obtain ⟨r0, hr0, rfl⟩ := List.mem_map.mp hr
        rw [transformRow_get?, hc] at hv
        cases h0 : r0.get? j with
        | none => rw [h0] at hv; simp at hv
        | some v0 =>
          rw [h0] at hv
          simp only [Option.map_some', Option.some.injEq] at hv
          rw [← hv]
          exact hs r0 ((mem_drop_duplicates _ _).mp hr0) v0 h0
    | some c =>
      by_cases hnum : c ∈ numeric_cols
      · left
        intro r hr v hv
        simp only [] at hr
        obtain ⟨r0, hr0, rfl⟩ := List.mem_map.mp hr
        rw [transformRow_get?, hc] at hv
        cases h0 : r0.get? j with
        | none => rw [h0] at hv; simp at hv
        | some v0 =>
          rw [h0] at hv
          simp only [Option.map_some', Option.some.injEq] at hv
          rw [← hv, transformCell_numeric c hnum]
          cases v0 with
          | str s =>
            show isNumOrMissing (match parseNum s with
              | some q => Cell.num q
              | none => Cell.missing) = true
            cases parseNum s <;> rfl
          | num q => rfl
          | missing => rfl
      · by_cases htxt : c ∈ text_cols
        · right
          intro r hr v hv
          simp only [] at hr
          obtain ⟨r0, hr0, rfl⟩ := List.mem_map.mp hr
          rw [transformRow_get?, hc] at hv
          cases h0 : r0.get? j with
          | none => rw [h0] at hv; simp at hv
          | some v0 =>
            rw [h0] at hv
            simp only [Option.map_some', Option.some.injEq] at hv
            rw [← hv, transformCell_text c htxt]
            cases v0 <;> rfl
        · rcases hhomog j with hn | hs
          · left
            intro r hr v hv
            simp only [] at hr
            obtain ⟨r0, hr0, rfl⟩ := List.mem_map.mp hr
            rw [transformRow_get?, hc] at hv
            cases h0 : r0.get? j with
            | none => rw [h0] at hv; simp at hv
            | some v0 =>
              rw [h0] at hv
              simp only [Option.map_some', Option.some.injEq] at hv
              rw [← hv, transformCell_other c hnum htxt]
              exact hn r0 ((mem_drop_duplicates _ _).mp hr0) v0 h0
          · right
            intro r hr v hv
            simp only [] at hr
            obtain ⟨r0, hr0, rfl⟩ := List.mem_map.mp hr
            rw [transformRow_get?, hc] at hv
            cases h0 : r0.get? j with
            | none => rw [h0] at hv; simp at hv
            | some v0 =>
              rw [h0] at hv
              simp only [Option.map_some', Option.some.injEq] at hv
              rw [← hv, transformCell_other c hnum htxt]
              exact hs r0 ((mem_drop_duplicates _ _).mp hr0) v0 h0
  · intro r hr v hv q hq
    simp only [] at hr
    obtain ⟨r0, hr0, rfl⟩ := List.mem_map.mp hr
    have hr0mem := (mem_drop_duplicates _ _).mp hr0
    obtain ⟨n, hn⟩ := List.mem_iff_get?.mp hv
    rw [transformRow_get?] at hn
    cases h0 : r0.get? n with
    | none => rw [h0] at hn; simp at hn
    | some v0 =>
      rw [h0] at hn
      simp only [Option.map_some', Option.some.injEq] at hn
      have hv0mem : v0 ∈ r0 := List.get?_mem h0
      cases hc : df.header.get? n with
      | none =>
        rw [hc] at hn
        rw [← hn] at hq
        exact hdec r0 hr0mem v0 hv0mem q hq
      | some c =>
        rw [hc] at hn
        have hn2 : transformCell c v0 = v := hn
        by_cases hnum : c ∈ numeric_cols
        · rw [transformCell_numeric c hnum] at hn2
          cases v0 with
          | str s =>
            rw [← hn2] at hq
            cases hp : parseNum s with
            | none =>
              rw [show to_numeric (Cell.str s) = (match parseNum s with
                | some q => Cell.num q
                | none => Cell.missing) from rfl, hp] at hq
              exact absurd hq (by simp)
            | some q2 =>
              rw [show to_numeric (Cell.str s) = (match parseNum s with
                | some q => Cell.num q
                | none => Cell.missing) from rfl, hp] at hq
              rw [Cell.num.injEq] at hq
              rw [hq] at hp
              exact parseNum_den_ten _ _ hp
          | num q0 =>
            rw [← hn2] at hq
            rw [show to_numeric (Cell.num q0) = Cell.num q0 from rfl] at hq
            exact hdec r0 hr0mem _ hv0mem q hq
          | missing =>
            rw [← hn2] at hq
            exact absurd hq (by simp [to_numeric])
        · by_cases htxt : c ∈ text_cols
          · rw [transformCell_text c htxt] at hn2
            rw [← hn2] at hq
            cases v0 <;> exact absurd hq (by simp [normalize_text])
          · rw [transformCell_other c hnum htxt] at hn2
            rw [← hn2] at hq
            exact hdec r0 hr0mem v0 hv0mem q hq

theorem showNum_ne_nil (q : Rat) : showNum q ≠ [] := by
  unfold showNum
  simp only []
  intro h
  rw [List.append_eq_nil] at h
  obtain ⟨h1, h2⟩ := h
  rw [List.append_eq_nil] at h2
  obtain ⟨h3, h4⟩ := h2
  have hlen := padZeros_length (decExp q.den + 1)
    (natDigits (q.num.natAbs * 10 ^ decExp q.den / q.den))
  have hz := congrArg List.length h3
  rw [List.length_take] at hz
  simp only [List.length_nil] at hz
  omega

theorem optFields_map_cellField (n : Nat) (r : List Cell) (hr : r.length = n) :
    optFields n (r.map cellField) = r.map optCell := by
  unfold optFields
  rw [List.length_map, hr, Nat.sub_self]
  rw [show List.replicate 0 (none : Option (List Char)) = [] from rfl,
    List.append_nil, List.map_map]
  rfl

theorem recordsOf_to_csv (ct : Table)
    (hhdr : renderRecord ',' (ct.header.map (fun h => renderField ',' h.data)) ≠ []) :
    recordsOf (to_csv ct)
      = renderRecord ',' (ct.header.map (fun h => renderField ',' h.data))
        :: (ct.rows.filter (fun r => !(renderRow ',' r).isEmpty)).map (renderRow ',') := by
  have hdata : (to_csv ct).data
      = renderLines (renderRecord ',' (ct.header.map (fun h => renderField ',' h.data))
          :: ct.rows.map (renderRow ',')) := rfl
  unfold recordsOf
  rw [hdata]
  rw [splitSep_lines ',' (by decide) (by decide) _ (by
    intro rec hrec
    rcases List.mem_cons.mp hrec with rfl | hmem
    · refine ⟨ct.header.map String.data, ?_⟩
      rw [List.map_map]
      rfl
    · obtain ⟨r, hr, rfl⟩ := List.mem_map.mp hmem
      refine ⟨r.map cellField, ?_⟩
      unfold renderRow
      rw [List.map_map]
      rfl)]
  rw [List.filter_append]
  rw [show List.filter (fun r => !r.isEmpty) [([] : List Char)] = [] from rfl]
  rw [List.append_nil, List.filter_cons]
  rw [if_pos (by simpa [List.isEmpty_iff] using hhdr)]
  congr 1
  rw [List.filter_map]
  rfl

theorem numericColB_spec (optRows : List (List (Option (List Char)))) (j : Nat)
    (h : numericColB optRows j = true) (r : List (Option (List Char))) (hr : r ∈ optRows)
    (f : List Char) (hf : r.get? j = some (some f)) : (parseNum ⟨f⟩).isSome = true := by
  unfold numericColB at h
  rw [List.all_eq_true] at h
  have h2 := h r hr
  rw [hf] at h2
  exact h2

theorem numericColB_of_colNum (rows : List (List Cell)) (j : Nat)
    (hcol : ∀ r ∈ rows, ∀ v, r.get? j = some v → isNumOrMissing v = true)
    (hdec : ∀ r ∈ rows, ∀ v ∈ r, ∀ q, v = Cell.num q → ∃ n, q.den ∣ 10 ^ n) :
    numericColB (rows.map (fun r => r.map optCell)) j = true := by
  unfold numericColB
  rw [List.all_eq_true]
  intro r2 hr2
  obtain ⟨r, hr, rfl⟩ := List.mem_map.mp hr2
  cases h0 : (r.map optCell).get? j with
  | none => rfl
  | some o =>
    cases o with
    | none => rfl
    | some f =>
      show (parseNum ⟨f⟩).isSome = true
      rw [List.get?_map] at h0
      cases hg : r.get? j with
      | none => rw [hg] at h0; exact absurd h0 (by simp)
      | some v =>
        rw [hg] at h0
        simp only [Option.map_some', Option.some.injEq] at h0
        have hnm := hcol r hr v hg
        cases v with
        | str s => exact absurd hnm (by simp [isNumOrMissing])
        | missing => exact absurd h0 (by simp [optCell, cellField])
        | num q =>
          have hne := showNum_ne_nil q
          have ho : optCell (Cell.num q) = some (showNum q) := by
            unfold optCell
            rw [show cellField (Cell.num q) = showNum q from rfl,
              if_neg (by simpa [List.isEmpty_iff] using hne)]
          rw [ho] at h0
          rw [Option.some.injEq] at h0
          rw [← h0]
          have hp := parseNum_showNum q
            (hdec r hr _ (List.get?_mem hg) q rfl)
          rw [hp]
          rfl

theorem cellOf_optCell_rel (b : Bool) (v : Cell)
    (hdecv : ∀ q, v = Cell.num q → ∃ n, q.den ∣ 10 ^ n)
    (hbnum : ∀ q, v = Cell.num q → b = true)
    (hbstr : ∀ s, v = Cell.str s → b = true →
      ∀ f, optCell v = some f → (parseNum ⟨f⟩).isSome = true) :
    csvRoundTripRel v (cellOf b (optCell v)) = true := by
  cases v with
  | missing =>
    have h0 : optCell Cell.missing = none := rfl
    rw [h0]
    have hc : cellOf b none = Cell.missing := rfl
    rw [hc]
    decide
  | num q =>
    have hb := hbnum q rfl
    subst hb
    have hne := showNum_ne_nil q
    have ho : optCell (Cell.num q) = some (showNum q) := by
      unfold optCell
      rw [show cellField (Cell.num q) = showNum q from rfl,
        if_neg (by simpa [List.isEmpty_iff] using hne)]
    rw [ho]
    have hp : parseNum ⟨showNum q⟩ = some q := parseNum_showNum q (hdecv q rfl)
    have hc : cellOf true (some (showNum q)) = Cell.num q := by
      have h1 : cellOf true (some (showNum q))
          = (match parseNum ⟨showNum q⟩ with
             | some q2 => Cell.num q2
             | none => Cell.missing) := rfl
      rw [h1, hp]
    rw [hc]
    simp [csvRoundTripRel, csvCoercionRel]
  | str s =>
    by_cases hs : s.data.isEmpty = true
    · have hsnil : s.data = [] := by simpa [List.isEmpty_iff] using hs
      have hse : s = "" := by
        cases s with
        | mk d =>
          simp only [] at hsnil
          rw [show ("" : String) = ⟨[]⟩ from rfl, hsnil]
      subst hse
      have ho : optCell (Cell.str "") = none := by
        unfold optCell
        rw [if_pos (by decide)]
      rw [ho]
      have hc : cellOf b none = Cell.missing := rfl
      rw [hc]
      decide
    · have ho : optCell (Cell.str s) = some s.data := by
        unfold optCell
        rw [show cellField (Cell.str s) = s.data from rfl, if_neg hs]
      rw [ho]
      cases b with
      | false =>
        have hc : cellOf false (some s.data) = Cell.str ⟨s.data⟩ := rfl
        rw [hc]
        have he : (⟨s.data⟩ : String) = s := rfl
        rw [he]
        simp [csvRoundTripRel, csvCoercionRel]
      | true =>
        have hps := hbstr s rfl rfl s.data ho
        rw [Option.isSome_iff_exists] at hps
        obtain ⟨q2, hq2⟩ := hps
        have hc : cellOf true (some s.data) = Cell.num q2 := by
          have h1 : cellOf true (some s.data)
              = (match parseNum ⟨s.data⟩ with
                 | some q => Cell.num q
                 | none => Cell.missing) := rfl
          rw [h1, hq2]
        rw [hc]
        have hps2 : parseNum s = some q2 := hq2
        simp [csvRoundTripRel, csvCoercionRel, hps2]

theorem read_csv_to_csv (ct : Table)
    (hne : ct.header ≠ [])
    (hhdr : renderRecord ',' (ct.header.map (fun h => renderField ',' h.data)) ≠ [])
    (hlen : ∀ r ∈ ct.rows, r.length = ct.header.length)
    (hhomog : ∀ j, colNum ct j ∨ colStr ct j)
    (hdec : decimalCells ct) :
    ∃ t2 : Table, read_csv ',' (to_csv ct) = .ok t2 ∧
      t2.header = ct.header ∧
      List.Forall₂ (List.Forall₂ (fun v w => csvRoundTripRel v w = true))
        (ct.rows.filter (fun r => !(renderRow ',' r).isEmpty)) t2.rows := by
  set R := ct.rows.filter (fun r => !(renderRow ',' r).isEmpty) with hR
  set optR := R.map (fun r => r.map optCell) with hoptR
  have hmemR : ∀ r ∈ R, r ∈ ct.rows ∧ r ≠ [] := by
    intro r hr
    rw [hR] at hr
    have h1 := List.mem_filter.mp hr
    refine ⟨h1.1, ?_⟩
    intro hnil
    rw [hnil] at h1
    exact absurd h1.2 (by decide)
  have hHdr : (parseFields ','
        (renderRecord ',' (ct.header.map (fun h => renderField ',' h.data)))).map
        (fun f => (⟨f⟩ : String)) = ct.header := by
    unfold parseFields
    rw [show ct.header.map (fun h => renderField ',' h.data)
        = (ct.header.map String.data).map (renderField ',') from by rw [List.map_map]; rfl]
    rw [splitSep_record_fields ',' (by decide) _ (by simpa using hne)]
    rw [List.map_map, List.map_map, List.map_map]
    refine (List.map_congr_left fun h _ => ?_).trans (List.map_id ct.header)
    show (⟨unquoteField (renderField ',' h.data)⟩ : String) = h
    rw [unquoteField_renderField]
  have hRowPF : ∀ r ∈ R, parseFields ',' (renderRow ',' r) = r.map cellField := by
    intro r hr
    obtain ⟨_, hrne⟩ := hmemR r hr
    unfold parseFields renderRow
    rw [show r.map (fun v => renderField ',' (cellField v))
        = (r.map cellField).map (renderField ',') from by rw [List.map_map]; rfl]
    rw [splitSep_record_fields ',' (by decide) _ (by simpa using hrne)]
    rw [List.map_map,
      show List.map (unquoteField ∘ renderField ',') (r.map cellField)
        = List.map id (r.map cellField) from
          List.map_congr_left (fun f _ => unquoteField_renderField ',' f),
      List.map_id]
  have hread : read_csv ',' (to_csv ct)
      = .ok ⟨ct.header, optR.map (fun r => r.enum.map
          (fun p => cellOf (numericColB optR p.1) p.2))⟩ := by
    unfold read_csv
    rw [recordsOf_to_csv ct hhdr, ← hR]
    simp only []
    rw [Except.ok.injEq, Table.mk.injEq]
    rw [hHdr]
    refine ⟨rfl, ?_⟩
    have hraw : List.map (parseFields ',') (List.map (renderRow ',') R)
        = R.map (fun r => r.map cellField) := by
      rw [List.map_map]
      exact List.map_congr_left fun r hr => hRowPF r hr
    rw [hraw]
    have hfil : (R.map (fun r => r.map cellField)).filter
        (fun fs => fs.length ≤ ct.header.length) = R.map (fun r => r.map cellField) := by
      rw [List.filter_eq_self]
      intro fs hfs
      obtain ⟨r, hr, rfl⟩ := List.mem_map.mp hfs
      simp only [List.length_map, decide_eq_true_eq]
      exact le_of_eq (hlen r (hmemR r hr).1)
    rw [hfil]
    have hopt : (R.map (fun r => r.map cellField)).map (optFields ct.header.length)
        = optR := by
      rw [List.map_map, hoptR]
      exact List.map_congr_left fun r hr =>
        optFields_map_cellField ct.header.length r (hlen r (hmemR r hr).1)
    rw [hopt]
  refine ⟨_, hread, rfl, ?_⟩
  simp only []
  rw [hoptR]
  rw [List.forall₂_map_right_iff, List.forall₂_map_right_iff, List.forall₂_same]
  intro r hr
  obtain ⟨hrmem, hrne⟩ := hmemR r hr
  rw [List.forall₂_iff_get]
  constructor
  · rw [List.length_map, List.enum_length, List.length_map]
  · intro i h1 h2
    have e1 : ((r.map optCell).enum.map
        (fun p => cellOf (numericColB (R.map (fun r => r.map optCell)) p.1) p.2)).get? i
        = some (cellOf (numericColB (R.map (fun r => r.map optCell)) i)
            (optCell (r.get ⟨i, h1⟩))) := by
      rw [List.get?_map, List.get?_enum, List.get?_map, List.get?_eq_get h1]
      rfl
    have hg := Option.some.inj ((List.get?_eq_get h2).symm.trans e1)
    rw [hg]
    have hvr : r.get ⟨i, h1⟩ ∈ r := List.get_mem r i h1
    have hvq : r.get? i = some (r.get ⟨i, h1⟩) := List.get?_eq_get h1
    apply cellOf_optCell_rel
    · intro q hq
      exact hdec r hrmem _ hvr q hq
    · intro q hq
      have hcn : colNum ct i := by
        rcases hhomog i with h | h
        · exact h
        · exfalso
          have hbad := h r hrmem _ hvq
          rw [hq] at hbad
          exact absurd hbad (by simp [isStrOrMissing])
      apply numericColB_of_colNum R i
      · intro r2 hr2 v2 hv2
        exact hcn r2 (hmemR r2 hr2).1 v2 hv2
      · intro r2 hr2 v2 hv2 q2 hq2
        exact hdec r2 (hmemR r2 hr2).1 v2 hv2 q2 hq2
    · intro s hs hbtrue f hf
      apply numericColB_spec (R.map (fun r => r.map optCell)) i hbtrue (r.map optCell)
        (List.mem_map_of_mem _ hr) f
      rw [List.get?_map, hvq, Option.map_some', hf]

/-- C8: counterexample to the literal round-trip claim.  The table parsed
from "TÍTULO,X" with the data row " ,1" cleans to a table holding the empty
string under TÍTULO (strip then upper of " "); to_csv writes that cell as
the empty field, exactly as it writes missing, and read_csv reads the empty
field back as missing.  The reparsed cell is therefore not identical to the
original and is not a number coerced from a string, refuting the claim that
cell values survive modulo numeric coercion only. -/
theorem C8_counterexample :
    read_csv ',' "TÍTULO,X\n ,1\n"
        = .ok ⟨["TÍTULO", "X"], [[Cell.str " ", Cell.num 1]]⟩ ∧
    clean_data ⟨["TÍTULO", "X"], [[Cell.str " ", Cell.num 1]]⟩
        = ⟨["TÍTULO", "X"], [[Cell.str "", Cell.num 1]]⟩ ∧
    read_csv ',' (to_csv ⟨["TÍTULO", "X"], [[Cell.str "", Cell.num 1]]⟩)
        = .ok ⟨["TÍTULO", "X"], [[Cell.missing, Cell.num 1]]⟩ ∧
    csvCoercionRel (Cell.str "") Cell.missing = false := by
  refine ⟨by decide, by decide, by decide, by decide⟩

/-- C8 (amended): for every table produced by the pipeline (a read_csv
result fed through clean_data) whose serialized header record is non-empty,
exporting with to_csv and re-parsing succeeds and returns the same header,
and the rows with non-empty serialization are reproduced in order cell by
cell, each reparsed cell equal to the original up to the documented
coercions: a string spelling a number may come back as that number, and the
empty string comes back as missing because both serialize as the empty
field. -/
theorem C8_export_roundtrip (delim : Char) (text : String) (df : Table)
    (hdf : read_csv delim text = .ok df)
    (hhdr : renderRecord ','
      ((clean_data df).header.map (fun h => renderField ',' h.data)) ≠ []) :
    ∃ t2 : Table, read_csv ',' (to_csv (clean_data df)) = .ok t2 ∧
      t2.header = (clean_data df).header ∧
      List.Forall₂ (List.Forall₂ (fun v w => csvRoundTripRel v w = true))
        ((clean_data df).rows.filter (fun r => !(renderRow ',' r).isEmpty)) t2.rows := by
  obtain ⟨hne, hlen, hhomog, hdec⟩ := read_csv_shape delim text df hdf
  obtain ⟨hlen2, hhomog2, hdec2⟩ := clean_shape df hlen hhomog hdec
  have hne2 : (clean_data df).header ≠ [] := by
    rw [clean_data_header]
    exact hne
  exact read_csv_to_csv (clean_data df) hne2 hhdr hlen2 hhomog2 hdec2

theorem C8_export_roundtrip_witness :
    ∃ t2 : Table,
      read_csv ',' (to_csv (clean_data ⟨["TÍTULO", "X"],
        [[Cell.str " ", Cell.num 1]]⟩)) = .ok t2 ∧
      t2.header = (clean_data ⟨["TÍTULO", "X"], [[Cell.str " ", Cell.num 1]]⟩).header ∧
      List.Forall₂ (List.Forall₂ (fun v w => csvRoundTripRel v w = true))
        ((clean_data ⟨["TÍTULO", "X"], [[Cell.str " ", Cell.num 1]]⟩).rows.filter
          (fun r => !(renderRow ',' r).isEmpty)) t2.rows :=
  C8_export_roundtrip ',' "TÍTULO,X\n ,1\n"
    ⟨["TÍTULO", "X"], [[Cell.str " ", Cell.num 1]]⟩ (by decide) (by decide)
